import Mathlib

/-! # Session assembly from an interleaved log (`main.go`)

A shallow embedding of `main.go`: the record types `Time`, `Address`, `Session`, `Logs`,
the line folding step `Logs.parseLine`, the final filter `Logs.getFullSessions`, the fullness
test `Session.isSessionFull` and the duration computation `Time.SetDuration`, together with the
parts of Go's `regexp`, `strings` and `time` packages these functions call.

Conventions of the embedding:

* a Go `string` is a `Str`, a list of characters; the empty string is `[]`;
* the Go map `map[string]*Session` is a finite map `Finmap` from `Str` to `Session`; every key
  owns its own record (the code allocates one `Session` per key), so writing through the pointer
  `l.Sessions[id]` is replacing the record stored under `id`;
* a Go slice whose order is the (unspecified) iteration order of a map is a `Multiset`;
* a method that mutates its receiver returns the new receiver, paired with its `error` result
  (`none` is Go's `nil`).
-/

namespace LogAutomation

/-- A Go string, as the list of its characters. -/
abbrev Str := List Char

/-- The struct `Time` of `main.go`. -/
structure Time where
  Start : Str := []
  «end» : Str := []
  Duration : Str := []
  deriving DecidableEq, Repr

/-- The struct `Address` of `main.go`. -/
structure Address where
  From : Str := []
  To : Str := []
  deriving DecidableEq, Repr

/-- The struct `Session` of `main.go`. -/
structure Session where
  Time : Time := {}
  SessionID : Str := []
  Client : Str := []
  MessageID : Str := []
  Address : Address := {}
  Status : Str := []
  deriving DecidableEq, Repr

/-- The errors `parseLine` and `SetDuration` return. `malformedLine line` is
`fmt.Errorf("more than 3 objects in line '%s'", line)`, `malformedField field` is
`fmt.Errorf("should be key and value in '%s'", field)`, and `timestampParse value` is the
`*time.ParseError` of `time.Parse` for the text `value`. -/
inductive Error where
  | malformedLine (line : Str)
  | malformedField (field : Str)
  | timestampParse (value : Str)
  deriving DecidableEq, Repr

/-- The struct `Logs` of `main.go`: the map from session identifier to session record. -/
structure Logs where
  Sessions : Finmap (fun _ : Str => Session)

/-- The state `Logs{Sessions: make(map[string]*Session)}` that `main` starts from. -/
def Logs.empty : Logs := ⟨∅⟩

/-- The records of the map, one per key, in no order (what `range l.Sessions` visits). -/
def Logs.records (l : Logs) : Multiset Session :=
  l.Sessions.entries.map Sigma.snd

/-- The method `isSessionFull` of `main.go`. -/
def Session.isSessionFull (s : Session) : Bool :=
  if s.Time.Start = [] ∨ s.Time.Duration = [] ∨ s.Client = [] ∨ s.MessageID = [] ∨
      s.SessionID = [] ∨ s.Status = [] ∨ s.Address.From = [] ∨ s.Address.To = [] then
    false
  else
    true

/-- The method `getFullSessions` of `main.go`: the records visited by the `range` loop for which
`isSessionFull` holds. -/
def Logs.getFullSessions (l : Logs) : Multiset Session :=
  l.records.filter (fun s => s.isSessionFull = true)

/-! ## `regexp` and `strings` -/

/-- The class `\s` of Go's `regexp` (RE2 syntax): tab, line feed, form feed, carriage return and
space. -/
def isSpace (c : Char) : Bool :=
  c = '\t' ∨ c = '\n' ∨ c = '\x0c' ∨ c = '\r' ∨ c = ' '

/-- Copies `s`, writing one space for each maximal run of `\s` characters; `inRun` tells that
the character before the head of `s` belongs to a run whose space is already written. -/
def collapse (inRun : Bool) : Str → Str
  | [] => []
  | c :: cs =>
    if isSpace c then
      if inRun then collapse true cs else ' ' :: collapse true cs
    else c :: collapse false cs

/-- The call `regexp.MustCompile("(\\s)+").ReplaceAllString(line, " ")` of `parseLine`: the
matches of `(\s)+` are the maximal runs of `\s` characters, leftmost first, and each is replaced
by one space. -/
def ReplaceAllString (line : Str) : Str :=
  collapse false line

/-- The call `strings.Split(s, sep)` for a separator of one character: `s` is cut at every
occurrence of `sep`; there is one piece more than there are occurrences, and pieces may be
empty. -/
def Split : Str → Char → List Str
  | [], _ => [[]]
  | c :: cs, sep =>
    if c = sep then [] :: Split cs sep
    else
      match Split cs sep with
      | [] => [[c]]
      | t :: ts => (c :: t) :: ts

/-! ## `time` -/

namespace time

/-- An instant of Go's `time.Time` in UTC without monotonic reading: `sec` seconds since
January 1 of year 1, 00:00:00, and `nsec` nanoseconds within that second. -/
structure Time where
  sec : Int
  nsec : Int
  deriving DecidableEq, Repr

/-- The zero value `time.Time{}`: January 1, year 1, 00:00:00.000000000 UTC. -/
def Time.zero : Time := ⟨0, 0⟩

/-- The type `time.Duration`: a count of nanoseconds held in an `int64`. -/
abbrev Duration := Int

/-- The constant `minDuration` of package `time`. -/
def minDuration : Int := -(2 ^ 63)

/-- The constant `maxDuration` of package `time`. -/
def maxDuration : Int := 2 ^ 63 - 1

/-- The function `isDigit(s, i)` of package `time`. -/
def isDigit (s : Str) (i : Nat) : Bool :=
  match s.get? i with
  | some c => decide ('0'.toNat ≤ c.toNat ∧ c.toNat ≤ '9'.toNat)
  | none => false

/-- The value `int(c - '0')` of a digit character. -/
def digitVal (c : Char) : Nat := c.toNat - '0'.toNat

/-- The function `getnum(s, fixed)` of package `time`: a number of two digits, or of one digit
when `fixed` is false and no second digit follows; `none` is `errBad`. -/
def getnum (s : Str) (fixed : Bool) : Option (Nat × Str) :=
  if !isDigit s 0 then none
  else if !isDigit s 1 then
    if fixed then none else some (digitVal (s.getD 0 '0'), s.drop 1)
  else some (digitVal (s.getD 0 '0') * 10 + digitVal (s.getD 1 '0'), s.drop 2)

/-- The function `atoi` of package `time` on a text that does not start with a sign: the value
of the text when all of it is digits. -/
def atoi (s : Str) : Option Nat :=
  if s ≠ [] ∧ s.all (fun c => decide ('0'.toNat ≤ c.toNat ∧ c.toNat ≤ '9'.toNat)) then
    some (s.foldl (fun x c => x * 10 + digitVal c) 0)
  else none

/-- The function `skip(value, prefix)` of package `time` for a prefix of one character other
than the space: the character is removed from the front of `value`, or the parse fails. -/
def skip (value : Str) (c : Char) : Option Str :=
  match value with
  | d :: rest => if d = c then some rest else none
  | [] => none

/-- The function `commaOrPeriod` of package `time`. -/
def commaOrPeriod (c : Char) : Bool := c = '.' ∨ c = ','

/-- The function `parseNanoseconds(value, nbytes)` of package `time`, called with `value`
starting with a separator followed by `nbytes - 1` digits: the digits after the ninth are
dropped and the others are scaled to nanoseconds. -/
def parseNanoseconds (value : Str) (nbytes : Nat) : Option Nat :=
  if !commaOrPeriod (value.getD 0 ' ') then none
  else
    let nbytes := if nbytes > 10 then 10 else nbytes
    match atoi ((value.take nbytes).drop 1) with
    | none => none
    | some ns => some (ns * 10 ^ (10 - nbytes))

/-- The case `stdFracSecond9` of `time.Parse`: when `value` does not start with a separator and
a digit the fractional second is omitted; otherwise the separator and all the digits after it
are consumed. -/
def parseFrac (value : Str) : Option (Nat × Str) :=
  if value.length < 2 ∨ !commaOrPeriod (value.getD 0 ' ') ∨ !isDigit value 1 then
    some (0, value)
  else
    let i := ((value.drop 1).takeWhile
      (fun c => decide ('0'.toNat ≤ c.toNat ∧ c.toNat ≤ '9'.toNat))).length
    match parseNanoseconds value (1 + i) with
    | none => none
    | some nsec => some (nsec, value.drop (1 + i))

/-- The function `isLeap` of package `time`. -/
def isLeap (year : Nat) : Bool :=
  year % 4 = 0 ∧ (year % 100 ≠ 0 ∨ year % 400 = 0)

/-- The table `daysBefore` of package `time`: the days of a non-leap year before the end of
month `m`, with `daysBefore 0 = 0`. -/
def daysBefore (m : Nat) : Nat :=
  [0, 31, 59, 90, 120, 151, 181, 212, 243, 273, 304, 334, 365].getD m 365

/-- The function `daysIn(m, year)` of package `time`. -/
def daysIn (m year : Nat) : Nat :=
  if m = 2 ∧ isLeap year then 29 else daysBefore m - daysBefore (m - 1)

/-- The days from January 1 of year 0 to January 1 of `year` in the proleptic Gregorian
calendar. -/
def daysBeforeYear (year : Nat) : Nat :=
  365 * year + (year + 3) / 4 - (year + 99) / 100 + (year + 399) / 400

/-- The function `time.Date(year, month, day, hour, min, sec, nsec, time.UTC)` for arguments
in range: the days since January 1 of year 1 (year 0 has 366 days), turned into seconds. -/
def Date (year month day hour min sec nsec : Nat) : Time :=
  let d : Int := (daysBeforeYear year : Int) - 366 + (daysBefore (month - 1) : Int)
    + (if isLeap year ∧ 3 ≤ month then 1 else 0) + ((day : Int) - 1)
  ⟨d * 86400 + (hour * 3600 + min * 60 + sec : Nat), nsec⟩

/-- The function `time.Parse(layout, value)` for the layout `"2006-01-02T15:04:05.999999"`:
a year of four digits, a month and a day of two digits, an hour of one or two digits, a minute
and a second of two digits, an optional fractional second of any number of digits, and nothing
after it; every number is checked against its range. `none` stands for any `*ParseError`. -/
def Parse (value : Str) : Option Time :=
  if value.length < 4 ∨ !isDigit value 0 then none else
  match atoi (value.take 4) with
  | none => none
  | some year =>
  match skip (value.drop 4) '-' with
  | none => none
  | some value =>
  match getnum value true with
  | none => none
  | some (month, value) =>
  if month = 0 ∨ 12 < month then none else
  match skip value '-' with
  | none => none
  | some value =>
  match getnum value true with
  | none => none
  | some (day, value) =>
  match skip value 'T' with
  | none => none
  | some value =>
  match getnum value false with
  | none => none
  | some (hour, value) =>
  if 24 ≤ hour then none else
  match skip value ':' with
  | none => none
  | some value =>
  match getnum value true with
  | none => none
  | some (min, value) =>
  if 60 ≤ min then none else
  match skip value ':' with
  | none => none
  | some value =>
  match getnum value true with
  | none => none
  | some (sec, value) =>
  if 60 ≤ sec then none else
  match parseFrac value with
  | none => none
  | some (nsec, value) =>
  if value ≠ [] then none
  else if day < 1 ∨ day > daysIn month year then none
  else some (Date year month day hour min sec nsec)

/-- The method `t.Sub(u)` of `time.Time`: the difference in nanoseconds, replaced by
`minDuration` or `maxDuration` when it does not fit an `int64`. -/
def Time.Sub (t u : Time) : Duration :=
  let d : Int := (t.sec - u.sec) * 1000000000 + (t.nsec - u.nsec)
  if d < minDuration then minDuration
  else if maxDuration < d then maxDuration
  else d

/-- The method `t.Add(d)` of `time.Time`; Go's `/` and `%` round towards zero. -/
def Time.Add (t : Time) (d : Duration) : Time :=
  let dsec := d.tdiv 1000000000
  let nsec := t.nsec + d.tmod 1000000000
  if nsec ≥ 1000000000 then ⟨t.sec + dsec + 1, nsec - 1000000000⟩
  else if nsec < 0 then ⟨t.sec + dsec - 1, nsec + 1000000000⟩
  else ⟨t.sec + dsec, nsec⟩

/-- The function `appendInt(b, x, width)` of package `time` for `x ≥ 0`: the decimal digits of
`x`, padded with zeros on the left to `width` characters. -/
def appendInt (x width : Nat) : Str :=
  let ds := Nat.toDigits 10 x
  List.replicate (width - ds.length) '0' ++ ds

/-- The function `appendNano` of package `time` for `.999999`: the first six of the nine digits
of the nanoseconds, without trailing zeros, after a period; nothing when no digit is left. -/
def appendNano (nanosec : Nat) : Str :=
  let ds := ((appendInt nanosec 9).take 6).reverse.dropWhile (fun c => c = '0')
  if ds = [] then [] else '.' :: ds.reverse

/-- The method `t.Format(layout)` of `time.Time` for the layout `"15:04:05.999999"`: hour, minute
and second of the time of day of `t`, two digits each, and the fractional second. The time of
day is the seconds of `t` modulo the 86400 seconds of a day. -/
def Time.Format (t : Time) : Str :=
  let tod := (t.sec % 86400).toNat
  appendInt (tod / 3600) 2 ++ [':'] ++ appendInt (tod % 3600 / 60) 2 ++ [':']
    ++ appendInt (tod % 60) 2 ++ appendNano t.nsec.toNat

end time

/-! ## The methods of `main.go` -/

/-- The method `SetDuration` of `main.go`. The local `tEnd` holds the parsed `t.Start` and the
local `tStart` the parsed `t.end`, as in the source. -/
def Time.SetDuration (t : Time) : Time × Option Error :=
  if t.«end» = [] ∨ t.Start = [] then (t, none)
  else
    match time.Parse t.Start with
    | none => (t, some (Error.timestampParse t.Start))
    | some tEnd =>
      match time.Parse t.«end» with
      | none => (t, some (Error.timestampParse t.«end»))
      | some tStart =>
        let diff := tStart.Sub tEnd
        let outDiff := time.Time.zero.Add diff
        ({ t with Duration := outDiff.Format }, none)

/-- The write `l.Sessions[id].field = …` through the pointer stored under `id`: the record of
`id` is replaced by `f` of it. `parseLine` writes only after it has made sure that `id` is a
key. -/
def Logs.modify (l : Logs) (id : Str) (f : Session → Session) : Logs :=
  match l.Sessions.lookup id with
  | some s => ⟨l.Sessions.insert id (f s)⟩
  | none => l

/-- The step "Add session if new" of `parseLine`. -/
def Logs.addIfNew (l : Logs) (sessionID : Str) : Logs :=
  if sessionID ∈ l.Sessions then l
  else ⟨l.Sessions.insert sessionID { SessionID := sessionID }⟩

/-- The method `parseLine` of `main.go`. The receiver is a struct holding a map, so the caller
sees the writes: the state after the call is returned with the error. The error returned by
`SetDuration` is not looked at. -/
def Logs.parseLine (l : Logs) (line : Str) : Logs × Option Error :=
  let line := ReplaceAllString line
  match Split line ' ' with
  | [timestamp, sessionID, fieldSpec] =>
    let l := l.addIfNew sessionID
    match Split fieldSpec '=' with
    | [key, value] =>
      if key = "client".toList then
        (l.modify sessionID fun s =>
          { s with Time := { s.Time with Start := timestamp }, Client := value }, none)
      else if key = "message-id".toList then
        (l.modify sessionID fun s => { s with MessageID := value }, none)
      else if key = "from".toList then
        (l.modify sessionID fun s => { s with Address := { s.Address with From := value } }, none)
      else if key = "to".toList then
        (l.modify sessionID fun s => { s with Address := { s.Address with To := value } }, none)
      else if key = "status".toList then
        (l.modify sessionID fun s =>
          let t : Time := { s.Time with «end» := timestamp }
          { s with Status := value, Time := t.SetDuration.1 }, none)
      else (l, none)
    | _ => (l, some (Error.malformedField fieldSpec))
  | _ => (l, some (Error.malformedLine line))

/-- The decoding part of `parseLine` (the normalisation and the two `Split` calls with their
length checks): the timestamp, the session identifier, the key and the value of a line, or the
error `parseLine` returns for it. -/
def decode (line : Str) : Except Error (Str × Str × Str × Str) :=
  let line := ReplaceAllString line
  match Split line ' ' with
  | [timestamp, sessionID, fieldSpec] =>
    match Split fieldSpec '=' with
    | [key, value] => Except.ok (timestamp, sessionID, key, value)
    | _ => Except.error (Error.malformedField fieldSpec)
  | _ => Except.error (Error.malformedLine line)

/-- The exact difference `t - u` in nanoseconds. -/
def time.Time.since (t u : time.Time) : Int :=
  (t.sec - u.sec) * 1000000000 + (t.nsec - u.nsec)

/-- The text `HH:MM:SS[.ffffff]` of an elapsed time of `ns` nanoseconds, as the specification
words it: the whole hours of the elapsed time (two digits at least, not reduced), its minutes
and its seconds, and its microseconds without trailing zeros when there are any. -/
def formatElapsed (ns : Nat) : Str :=
  time.appendInt (ns / 3600000000000) 2 ++ [':'] ++ time.appendInt (ns / 60000000000 % 60) 2
    ++ [':'] ++ time.appendInt (ns / 1000000000 % 60) 2 ++ time.appendNano (ns % 1000000000)

/-- The branch of the dispatch of `parseLine` for `key`, as a function of the record it writes
to: the record after the writes of that branch. -/
def Session.assign (s : Session) (timestamp key value : Str) : Session :=
  if key = "client".toList then
    { s with Time := { s.Time with Start := timestamp }, Client := value }
  else if key = "message-id".toList then { s with MessageID := value }
  else if key = "from".toList then { s with Address := { s.Address with From := value } }
  else if key = "to".toList then { s with Address := { s.Address with To := value } }
  else if key = "status".toList then
    let t : LogAutomation.Time := { s.Time with «end» := timestamp }
    { s with Status := value, Time := t.SetDuration.1 }
  else s

/-- Whether `line` decodes to a line of the session `sid` with the key `key`. -/
def isLineOf (sid key line : Str) : Bool :=
  match decode line with
  | Except.ok (_, s, k, _) => decide (s = sid ∧ k = key)
  | Except.error _ => false

/-- The timestamp and the value of the last of `lines` that decodes to a line of the session
`sid` with the key `key`, if there is one. -/
def lastOf (lines : List Str) (sid key : Str) : Option (Str × Str) :=
  (lines.filterMap fun line =>
    match decode line with
    | Except.ok (timestamp, s, k, value) =>
      if s = sid ∧ k = key then some (timestamp, value) else none
    | Except.error _ => none).getLast?

/-- The loop of `main`: `parseLine` on each line in turn, stopping at the first error. -/
def Logs.parseLines (l : Logs) : List Str → Logs × Option Error
  | [] => (l, none)
  | line :: rest =>
    match l.parseLine line with
    | (l, none) => l.parseLines rest
    | (l, some e) => (l, some e)

/-- The states reachable by calls of `parseLine`: the state after calling `parseLine` on each
of `lines` in turn, whatever each call returns. -/
def Logs.parseEach (l : Logs) (lines : List Str) : Logs :=
  lines.foldl (fun l line => (l.parseLine line).1) l

/-- The session identifier `outList[1]` of a line that splits into three tokens. -/
def sessionOf (line : Str) : Option Str :=
  match Split (ReplaceAllString line) ' ' with
  | [_, sessionID, _] => some sessionID
  | _ => none

/-- The error `scanner.Err()` can report once `scanner.Scan()` has returned false:
`bufio.ErrTooLong` for a line that does not fit the scanner's buffer of 64 KiB, or the error of
a failed read. -/
inductive ScanError where
  | tooLong
  | read (message : Str)
  deriving DecidableEq, Repr

/-- The error `main` hands to `showErrorAndExit`: an error of `parseLine`, or the error of the
scanner. -/
inductive Fatal where
  | line (e : Error)
  | scan (e : ScanError)
  deriving DecidableEq, Repr

/-- The function `main` of `main.go` from its loop on. The scanner is taken by what it
delivers: `lines` are the texts `scanner.Text()` returns for the calls of `scanner.Scan()` that
return true, in order, and `scanErr` is what `scanner.Err()` returns after `Scan` has returned
false (`none` is `nil`: the end of the file was reached). `parseLine` is called on each line
from the empty map; at the first error `showErrorAndExit` logs the error and ends the process,
and nothing is printed (`Except.error`). After the loop a scanner error ends the process the
same way. Otherwise the full sessions are encoded and printed (`Except.ok`); `jsonOut` does not
fail on records of strings. -/
def main (lines : List Str) (scanErr : Option ScanError) : Except Fatal (Multiset Session) :=
  match Logs.empty.parseLines lines with
  | (_, some e) => Except.error (Fatal.line e)
  | (l, none) =>
    match scanErr with
    | some e => Except.error (Fatal.scan e)
    | none => Except.ok l.getFullSessions

/-- Whether no two adjacent characters of a text are both spaces. -/
def noDoubleSpace : Str → Bool
  | a :: b :: rest => !(decide (a = ' ' ∧ b = ' ')) && noDoubleSpace (b :: rest)
  | _ => true

/-- The record of the session `sid` after the lines `lines` of that session, from the record
`o` (or none) before them: each line that decodes puts the record, or a fresh one, through the
branch of its key. -/
def replay (sid : Str) : Option Session → List Str → Option Session
  | o, [] => o
  | o, line :: rest =>
    match decode line with
    | Except.ok (timestamp, _, key, value) =>
      replay sid (some (Session.assign (o.getD { SessionID := sid }) timestamp key value)) rest
    | Except.error _ => replay sid o rest

/-- The two decimal digits of a number below 100. -/
def twoDigits (n : Nat) : Str :=
  [Nat.digitChar (n / 10 % 10), Nat.digitChar (n % 10)]

/-- The six decimal digits of a number of microseconds below a second. -/
def sixDigits (us : Nat) : Str :=
  [Nat.digitChar (us / 100000 % 10), Nat.digitChar (us / 10000 % 10),
   Nat.digitChar (us / 1000 % 10), Nat.digitChar (us / 100 % 10),
   Nat.digitChar (us / 10 % 10), Nat.digitChar (us % 10)]

/-- A text without the zeros at its end. -/
def dropTrailingZeros (s : Str) : Str :=
  (s.reverse.dropWhile fun c => c = '0').reverse

/-- The fractional part of a clock text: a period and the six digits of the microseconds
without the zeros at the end, or nothing when no digit is left. -/
def fraction (us : Nat) : Str :=
  if dropTrailingZeros (sixDigits us) = [] then [] else '.' :: dropTrailingZeros (sixDigits us)

/-- The text `HH:MM:SS[.ffffff]` of `ns` nanoseconds since midnight, digit by digit: two digits
each for the hour, the minute and the second, and the fractional part of the microseconds. -/
def clockText (ns : Nat) : Str :=
  twoDigits (ns / 3600000000000) ++ [':'] ++ twoDigits (ns / 60000000000 % 60) ++ [':']
    ++ twoDigits (ns / 1000000000 % 60) ++ fraction (ns % 1000000000 / 1000)

/-! ## `Split` -/

theorem Split_ne_nil (s : Str) (c : Char) : Split s c ≠ [] := by
  cases s with
  | nil => simp [Split]
  | cons d ds =>
    unfold Split
    split_ifs
    · simp
    · split <;> simp

/-- There is one piece more than there are separators. -/
theorem length_Split (s : Str) (c : Char) : (Split s c).length = s.count c + 1 := by
  induction s with
  | nil => simp [Split]
  | cons d ds ih =>
    unfold Split
    split_ifs with h
    · subst h
      simp [ih]
    · have hne : (d == c) = false := by simpa using h
      rw [List.count_cons, hne]
      split
      · rename_i h0
        exact absurd h0 (Split_ne_nil ds c)
      · rename_i t ts h0
        rw [h0] at ih
        simpa using ih

theorem Split_cons_self (s : Str) (c : Char) : Split (c :: s) c = [] :: Split s c := by
  rw [Split, if_pos rfl]

theorem Split_cons_ne (s t : Str) (ts : List Str) (c d : Char) (hd : ¬ d = c)
    (hs : Split s c = t :: ts) : Split (d :: s) c = (d :: t) :: ts := by
  rw [Split, if_neg hd, hs]

theorem Split_of_not_mem (s : Str) (c : Char) (h : c ∉ s) : Split s c = [s] := by
  induction s with
  | nil => simp [Split]
  | cons d ds ih =>
    have hd : ¬ d = c := fun e => h (by simp [e])
    have hds : c ∉ ds := fun e => h (List.mem_cons_of_mem _ e)
    exact Split_cons_ne ds ds [] c d hd (ih hds)

theorem Split_append_sep (a b : Str) (c : Char) (h : c ∉ a) :
    Split (a ++ c :: b) c = a :: Split b c := by
  induction a with
  | nil => exact Split_cons_self b c
  | cons d ds ih =>
    have hd : ¬ d = c := fun e => h (by simp [e])
    have hds : c ∉ ds := fun e => h (List.mem_cons_of_mem _ e)
    rw [List.cons_append]
    exact Split_cons_ne _ _ _ c d hd (ih hds)

/-- A text with a separator is the text before the first separator, the separator, and the text
after it. -/
theorem eq_takeWhile_sep_drop (s : Str) (c : Char) (h : c ∈ s) :
    s = s.takeWhile (fun d => d ≠ c) ++ c :: (s.dropWhile (fun d => d ≠ c)).drop 1 := by
  induction s with
  | nil => simp at h
  | cons d ds ih =>
    by_cases hd : d = c
    · subst hd
      simp
    · have hds : c ∈ ds := by
        rcases List.mem_cons.mp h with e | e
        · exact absurd e.symm hd
        · exact e
      have := ih hds
      simp only [ne_eq, decide_not] at this ⊢
      rw [List.takeWhile_cons_of_pos (by simpa using hd),
        List.dropWhile_cons_of_pos (by simpa using hd), List.cons_append, ← this]

theorem not_mem_takeWhile_ne (s : Str) (c : Char) : c ∉ s.takeWhile (fun d => d ≠ c) := by
  intro h
  have := List.mem_takeWhile_imp h
  simp at this

/-- The first piece is the text before the first separator. -/
theorem Split_eq_takeWhile_cons (s : Str) (c : Char) (h : c ∈ s) :
    Split s c =
      s.takeWhile (fun d => d ≠ c) :: Split ((s.dropWhile (fun d => d ≠ c)).drop 1) c := by
  have h1 := Split_append_sep (s.takeWhile (fun d => d ≠ c))
    ((s.dropWhile (fun d => d ≠ c)).drop 1) c (not_mem_takeWhile_ne s c)
  rw [← eq_takeWhile_sep_drop s c h] at h1
  exact h1

/-- A text splits into two pieces exactly when it has one separator, and then the pieces are
the text before the separator and the text after it. -/
theorem Split_eq_pair_iff (s key value : Str) (c : Char) :
    Split s c = [key, value] ↔
      s.count c = 1 ∧ key = s.takeWhile (fun d => d ≠ c) ∧
        value = (s.dropWhile (fun d => d ≠ c)).drop 1 := by
  constructor
  · intro h
    have hlen := length_Split s c
    rw [h] at hlen
    have hcount : s.count c = 1 := by simpa using hlen.symm
    have hmem : c ∈ s := List.count_pos_iff.mp (by omega)
    rw [Split_eq_takeWhile_cons s c hmem] at h
    simp only [List.cons.injEq] at h
    obtain ⟨h1, h2⟩ := h
    refine ⟨hcount, h1.symm, ?_⟩
    have hlen2 := length_Split ((s.dropWhile (fun d => d ≠ c)).drop 1) c
    rw [h2] at hlen2
    have hnot : c ∉ (s.dropWhile (fun d => d ≠ c)).drop 1 := by
      intro hin
      have hpos := List.count_pos_iff.mpr hin
      simp only [List.length_singleton] at hlen2
      omega
    rw [Split_of_not_mem _ _ hnot] at h2
    simpa using h2.symm
  · rintro ⟨hcount, rfl, rfl⟩
    have hmem : c ∈ s := List.count_pos_iff.mp (by omega)
    rw [Split_eq_takeWhile_cons s c hmem]
    have hnot : c ∉ (s.dropWhile (fun d => d ≠ c)).drop 1 := by
      intro hin
      have h2 := List.count_pos_iff.mpr hin
      have hsplit := eq_takeWhile_sep_drop s c hmem
      have hc := congrArg (List.count c) hsplit
      rw [List.count_append, List.count_cons_self] at hc
      omega
    rw [Split_of_not_mem _ _ hnot]

/-! ## `time` -/

/-- Adding a duration to the zero time: the seconds are the duration divided by a second,
rounded down, and the nanoseconds the remainder. -/
theorem zero_Add (d : Int) :
    time.Time.zero.Add d = ⟨d / 1000000000, d % 1000000000⟩ := by
  have hq : d.tdiv 1000000000 = if 0 ≤ d then d / 1000000000 else -((-d) / 1000000000) := by
    split_ifs with h
    · exact Int.tdiv_eq_ediv h (by decide)
    · have h1 := Int.neg_tdiv (-d) 1000000000
      rw [neg_neg] at h1
      rw [h1, Int.tdiv_eq_ediv (by omega) (by decide)]
  have hr := Int.tmod_def d 1000000000
  unfold time.Time.Add time.Time.zero
  simp only [zero_add]
  rw [hr, hq]
  split_ifs <;> simp only [time.Time.mk.injEq] <;> refine ⟨?_, ?_⟩ <;> first | trivial | omega

/-- The time of day of the zero time plus `d` nanoseconds is `d` modulo a day. -/
theorem zero_Add_Format (d : Int) :
    (time.Time.zero.Add d).Format = formatElapsed (d % 86400000000000).toNat := by
  rw [zero_Add]
  unfold time.Time.Format formatElapsed
  simp only
  have h1 : (d / 1000000000 % 86400).toNat / 3600 =
      (d % 86400000000000).toNat / 3600000000000 := by omega
  have h2 : (d / 1000000000 % 86400).toNat % 3600 / 60 =
      (d % 86400000000000).toNat / 60000000000 % 60 := by omega
  have h3 : (d / 1000000000 % 86400).toNat % 60 =
      (d % 86400000000000).toNat / 1000000000 % 60 := by omega
  have h4 : (d % 1000000000).toNat = (d % 86400000000000).toNat % 1000000000 := by omega
  rw [h1, h2, h3, h4]

theorem Sub_of_fits (t u : time.Time)
    (h : time.minDuration ≤ t.since u ∧ t.since u ≤ time.maxDuration) :
    t.Sub u = t.since u := by
  unfold time.Time.Sub
  unfold time.Time.since time.minDuration time.maxDuration at *
  simp only
  split_ifs with h1 h2
  · omega
  · omega
  · rfl

/-- The result of `SetDuration` when both timestamps parse. -/
theorem SetDuration_of_parse (t : Time) (a b : time.Time)
    (ha : time.Parse t.Start = some a) (hb : time.Parse t.«end» = some b) :
    t.SetDuration = ({ t with Duration := (time.Time.zero.Add (b.Sub a)).Format }, none) := by
  have hs : t.Start ≠ [] := by
    intro h
    rw [h] at ha
    exact Option.noConfusion ha
  have he : t.«end» ≠ [] := by
    intro h
    rw [h] at hb
    exact Option.noConfusion hb
  unfold Time.SetDuration
  rw [if_neg (by tauto), ha, hb]

/-! ## Finite maps and the single step -/

theorem lookup_addIfNew (l : Logs) (sid k : Str) :
    (l.addIfNew sid).Sessions.lookup k =
      if k = sid then some ((l.Sessions.lookup sid).getD { SessionID := sid })
      else l.Sessions.lookup k := by
  unfold Logs.addIfNew
  by_cases hmem : sid ∈ l.Sessions
  · rw [if_pos hmem]
    split_ifs with hk
    · subst hk
      obtain ⟨b, hb⟩ := Finmap.mem_iff.mp hmem
      simp [hb]
    · rfl
  · rw [if_neg hmem]
    split_ifs with hk
    · subst hk
      simp [Finmap.lookup_eq_none.mpr hmem]
    · simp [Finmap.lookup_insert_of_ne _ hk]

theorem lookup_modify (l : Logs) (id k : Str) (f : Session → Session) :
    (l.modify id f).Sessions.lookup k =
      if k = id then (l.Sessions.lookup id).map f else l.Sessions.lookup k := by
  unfold Logs.modify
  cases hl : l.Sessions.lookup id with
  | none =>
    split_ifs with hk
    · subst hk; simp [hl]
    · rfl
  | some s =>
    split_ifs with hk
    · subst hk; simp
    · simp [Finmap.lookup_insert_of_ne _ hk]

/-- The error of `parseLine` is the error of `decode`. -/
theorem parseLine_snd (l : Logs) (line : Str) :
    (l.parseLine line).2 = match decode line with
      | Except.ok _ => none
      | Except.error e => some e := by
  unfold Logs.parseLine decode
  simp only
  split
  · split
    · split_ifs <;> rfl
    · rfl
  · rfl

/-- The state after `parseLine` on a line that decodes: the record of the line's session, or a
fresh record for it, has gone through the branch of the line's key; the other records are
the same. -/
theorem parseLine_lookup (l : Logs) (line timestamp sid key value k : Str)
    (h : decode line = Except.ok (timestamp, sid, key, value)) :
    (l.parseLine line).1.Sessions.lookup k =
      if k = sid then
        some (((l.Sessions.lookup sid).getD { SessionID := sid }).assign timestamp key value)
      else l.Sessions.lookup k := by
  unfold decode at h
  unfold Logs.parseLine
  simp only at h ⊢
  split at h
  · rename_i ts sid2 spec hs
    split at h
    · rename_i key2 value2 hs2
      simp only [Except.ok.injEq, Prod.mk.injEq] at h
      obtain ⟨rfl, rfl, rfl, rfl⟩ := h
      simp only [Session.assign]
      split_ifs <;> simp_all [lookup_modify, lookup_addIfNew]
    · exact absurd h (by simp)
  · exact absurd h (by simp)

theorem decode_ok_iff (line timestamp sid key value : Str) :
    decode line = Except.ok (timestamp, sid, key, value) ↔
      ∃ fieldSpec, Split (ReplaceAllString line) ' ' = [timestamp, sid, fieldSpec] ∧
        Split fieldSpec '=' = [key, value] := by
  unfold decode
  simp only
  constructor
  · intro h
    split at h
    · rename_i ts sid2 spec hs
      split at h
      · rename_i key2 value2 hs2
        simp only [Except.ok.injEq, Prod.mk.injEq] at h
        obtain ⟨rfl, rfl, rfl, rfl⟩ := h
        exact ⟨spec, hs, hs2⟩
      · exact absurd h (by simp)
    · exact absurd h (by simp)
  · rintro ⟨spec, hs, hs2⟩
    rw [hs]
    simp only
    rw [hs2]

theorem length_eq_three_iff (xs : List Str) :
    xs.length = 3 ↔ ∃ a b c, xs = [a, b, c] := by
  constructor
  · intro h
    match xs, h with
    | [a, b, c], _ => exact ⟨a, b, c, rfl⟩
  · rintro ⟨a, b, c, rfl⟩
    rfl

/-- The result of `parseLine` on a line that does not split into three tokens. -/
theorem parseLine_of_not_three (l : Logs) (line : Str)
    (h : (Split (ReplaceAllString line) ' ').length ≠ 3) :
    l.parseLine line = (l, some (Error.malformedLine (ReplaceAllString line))) := by
  unfold Logs.parseLine
  simp only
  split
  · rename_i hs
    rw [hs] at h
    exact absurd rfl h
  · rfl

/-- The result of `parseLine` on a line of three tokens whose third does not split in two. -/
theorem parseLine_of_not_pair (l : Logs) (line timestamp sid fieldSpec : Str)
    (hline : Split (ReplaceAllString line) ' ' = [timestamp, sid, fieldSpec])
    (h : (Split fieldSpec '=').length ≠ 2) :
    l.parseLine line = (l.addIfNew sid, some (Error.malformedField fieldSpec)) := by
  unfold Logs.parseLine
  simp only
  rw [hline]
  simp only
  split
  · rename_i hs
    rw [hs] at h
    exact absurd rfl h
  · rfl

theorem decode_of_not_pair (line timestamp sid fieldSpec : Str)
    (hline : Split (ReplaceAllString line) ' ' = [timestamp, sid, fieldSpec])
    (h : (Split fieldSpec '=').length ≠ 2) :
    decode line = Except.error (Error.malformedField fieldSpec) := by
  unfold decode
  simp only
  rw [hline]
  simp only
  split
  · rename_i hs
    rw [hs] at h
    exact absurd rfl h
  · rfl

/-- The method `SetDuration` writes to no field but `Duration`. -/
theorem SetDuration_fst (t : Time) :
    t.SetDuration.1 = { t with Duration := t.SetDuration.1.Duration } := by
  unfold Time.SetDuration
  split_ifs
  · rfl
  · split
    · rfl
    · split <;> rfl

/-! ## The loop -/

theorem parseLines_cons_of_ok (l : Logs) (x : Str) (xs : List Str)
    (h : (l.parseLine x).2 = none) :
    l.parseLines (x :: xs) = (l.parseLine x).1.parseLines xs := by
  rw [Logs.parseLines]
  split
  · rename_i heq
    rw [heq]
  · rename_i heq
    rw [heq] at h
    exact Option.noConfusion h

theorem parseLine_ok_of_parseLines_ok (l : Logs) (x : Str) (xs : List Str)
    (h : (l.parseLines (x :: xs)).2 = none) : (l.parseLine x).2 = none := by
  rw [Logs.parseLines] at h
  split at h
  · rename_i heq
    rw [heq]
  · exact Option.noConfusion h

theorem parseLines_append_of_ok (l : Logs) (xs ys : List Str)
    (h : (l.parseLines (xs ++ ys)).2 = none) :
    (l.parseLines xs).2 = none ∧
      l.parseLines (xs ++ ys) = (l.parseLines xs).1.parseLines ys := by
  induction xs generalizing l with
  | nil => exact ⟨rfl, rfl⟩
  | cons x xs ih =>
    rw [List.cons_append] at h ⊢
    have hx := parseLine_ok_of_parseLines_ok l x _ h
    rw [parseLines_cons_of_ok l x _ hx] at h ⊢
    rw [parseLines_cons_of_ok l x _ hx]
    exact ih _ h

theorem decode_of_parseLine_ok (l : Logs) (x : Str) (h : (l.parseLine x).2 = none) :
    ∃ ts s k v, decode x = Except.ok (ts, s, k, v) := by
  rw [parseLine_snd] at h
  split at h
  · rename_i d hd
    exact ⟨d.1, d.2.1, d.2.2.1, d.2.2.2, hd⟩
  · exact Option.noConfusion h

theorem parseLine_ok_of_decode (l : Logs) (x ts s k v : Str)
    (h : decode x = Except.ok (ts, s, k, v)) : (l.parseLine x).2 = none := by
  rw [parseLine_snd, h]

/-! ## The dispatch on a record -/

theorem assign_Start (r : Session) (ts k v : Str) :
    (r.assign ts k v).Time.Start = if k = "client".toList then ts else r.Time.Start := by
  unfold Session.assign
  split_ifs with h1 h2 h3 h4 h5 <;> try rfl
  simp only
  rw [SetDuration_fst]

theorem assign_Duration_of_ne_status (r : Session) (ts k v : Str)
    (hk : k ≠ "status".toList) : (r.assign ts k v).Time.Duration = r.Time.Duration := by
  unfold Session.assign
  split_ifs <;> rfl

theorem assign_Duration_of_Start_empty (r : Session) (ts k v : Str) (hs : r.Time.Start = []) :
    (r.assign ts k v).Time.Duration = r.Time.Duration := by
  unfold Session.assign
  split_ifs with h1 h2 h3 h4 h5 <;> try rfl
  simp only [Time.SetDuration, hs, or_true, if_true]

theorem isLineOf_of_decode (sid key x ts s k v : Str)
    (h : decode x = Except.ok (ts, s, k, v)) :
    isLineOf sid key x = decide (s = sid ∧ k = key) := by
  unfold isLineOf
  rw [h]

/-- A line that is not a client line of `sid` keeps the record of `sid`, if there is one,
without start and without duration. -/
theorem parseLine_keeps_unstarted (l : Logs) (x sid : Str)
    (hok : (l.parseLine x).2 = none) (hx : isLineOf sid "client".toList x = false)
    (hinv : ∀ r, l.Sessions.lookup sid = some r → r.Time.Start = [] ∧ r.Time.Duration = []) :
    ∀ r, (l.parseLine x).1.Sessions.lookup sid = some r →
      r.Time.Start = [] ∧ r.Time.Duration = [] := by
  obtain ⟨ts, s, k, v, hdec⟩ := decode_of_parseLine_ok l x hok
  intro r hr
  rw [parseLine_lookup l x ts s k v sid hdec] at hr
  split_ifs at hr with hs
  · subst hs
    rw [isLineOf_of_decode _ _ x ts sid k v hdec] at hx
    have hk : ¬ k = "client".toList := by simpa using hx
    have hbase : ((l.Sessions.lookup sid).getD { SessionID := sid }).Time.Start = [] ∧
        ((l.Sessions.lookup sid).getD { SessionID := sid }).Time.Duration = [] := by
      cases hl : l.Sessions.lookup sid with
      | none => exact ⟨rfl, rfl⟩
      | some r0 => exact hinv r0 hl
    simp only [Option.some.injEq] at hr
    subst hr
    refine ⟨?_, ?_⟩
    · rw [assign_Start, if_neg hk]
      exact hbase.1
    · rw [assign_Duration_of_Start_empty _ _ _ _ hbase.1]
      exact hbase.2
  · exact hinv r hr

theorem parseLines_keeps_unstarted (sid : Str) (pre : List Str) :
    ∀ l : Logs, (l.parseLines pre).2 = none →
      (∀ x ∈ pre, isLineOf sid "client".toList x = false) →
      (∀ r, l.Sessions.lookup sid = some r → r.Time.Start = [] ∧ r.Time.Duration = []) →
      ∀ r, (l.parseLines pre).1.Sessions.lookup sid = some r →
        r.Time.Start = [] ∧ r.Time.Duration = [] := by
  induction pre with
  | nil => intro l _ _ hinv; exact hinv
  | cons x xs ih =>
    intro l hok hpre hinv
    have hx := parseLine_ok_of_parseLines_ok l x xs hok
    rw [parseLines_cons_of_ok l x xs hx] at hok ⊢
    exact ih _ hok (fun y hy => hpre y (List.mem_cons_of_mem _ hy))
      (parseLine_keeps_unstarted l x sid hx (hpre x (List.mem_cons_self _ _)) hinv)

/-- The duration of `sid` stays empty along lines in which no status line of `sid` comes after
a client line of `sid`, from a state in which the record has no duration and either has no
start or sees no status line any more. -/
theorem parseLines_keeps_duration_empty (sid : Str) (post : List Str) :
    ∀ l : Logs, (l.parseLines post).2 = none →
      post.Pairwise (fun x y =>
        ¬ (isLineOf sid "client".toList x = true ∧ isLineOf sid "status".toList y = true)) →
      (∃ r, l.Sessions.lookup sid = some r ∧ r.Time.Duration = [] ∧
        (r.Time.Start = [] ∨ ∀ y ∈ post, isLineOf sid "status".toList y = false)) →
      ∃ r, (l.parseLines post).1.Sessions.lookup sid = some r ∧ r.Time.Duration = [] := by
  induction post with
  | nil =>
    rintro l _ _ ⟨r, hr, hd, _⟩
    exact ⟨r, hr, hd⟩
  | cons x xs ih =>
    rintro l hok hpair ⟨r, hr, hd, hdisj⟩
    have hx := parseLine_ok_of_parseLines_ok l x xs hok
    rw [parseLines_cons_of_ok l x xs hx] at hok ⊢
    rw [List.pairwise_cons] at hpair
    obtain ⟨hhead, htail⟩ := hpair
    obtain ⟨ts, s, k, v, hdec⟩ := decode_of_parseLine_ok l x hx
    apply ih _ hok htail
    by_cases hs : sid = s
    · subst hs
      refine ⟨r.assign ts k v, ?_, ?_, ?_⟩
      · rw [parseLine_lookup l x ts sid k v sid hdec, if_pos rfl, hr]
        rfl
      · by_cases hst : k = "status".toList
        · have hstart : r.Time.Start = [] := by
            rcases hdisj with h | h
            · exact h
            · have h1 := h x (List.mem_cons_self _ _)
              rw [isLineOf_of_decode _ _ x ts sid k v hdec] at h1
              simp [hst] at h1
          rw [assign_Duration_of_Start_empty _ _ _ _ hstart]
          exact hd
        · rw [assign_Duration_of_ne_status _ _ _ _ hst]
          exact hd
      · by_cases hcl : k = "client".toList
        · right
          intro y hy
          have h1 := hhead y hy
          rw [isLineOf_of_decode _ _ x ts sid k v hdec] at h1
          simpa [hcl] using h1
        · rcases hdisj with h | h
          · left
            rw [assign_Start, if_neg hcl]
            exact h
          · right
            exact fun y hy => h y (List.mem_cons_of_mem _ hy)
    · refine ⟨r, ?_, hd, ?_⟩
      · rw [parseLine_lookup l x ts s k v sid hdec, if_neg hs]
        exact hr
      · rcases hdisj with h | h
        · exact Or.inl h
        · exact Or.inr (fun y hy => h y (List.mem_cons_of_mem _ hy))

theorem assign_Client (r : Session) (ts k v : Str) :
    (r.assign ts k v).Client = if k = "client".toList then v else r.Client := by
  unfold Session.assign
  split_ifs <;> rfl

theorem assign_MessageID (r : Session) (ts k v : Str) :
    (r.assign ts k v).MessageID = if k = "message-id".toList then v else r.MessageID := by
  unfold Session.assign
  split_ifs <;> simp_all

theorem assign_From (r : Session) (ts k v : Str) :
    (r.assign ts k v).Address.From = if k = "from".toList then v else r.Address.From := by
  unfold Session.assign
  split_ifs <;> simp_all

theorem assign_To (r : Session) (ts k v : Str) :
    (r.assign ts k v).Address.To = if k = "to".toList then v else r.Address.To := by
  unfold Session.assign
  split_ifs <;> simp_all

theorem assign_Status (r : Session) (ts k v : Str) :
    (r.assign ts k v).Status = if k = "status".toList then v else r.Status := by
  unfold Session.assign
  split_ifs <;> simp_all

theorem parseLines_ok_of_decode (lines : List Str)
    (hdec : ∀ x ∈ lines, ∃ d, decode x = Except.ok d) :
    ∀ l : Logs, (l.parseLines lines).2 = none := by
  induction lines with
  | nil => intro l; rfl
  | cons x xs ih =>
    intro l
    obtain ⟨⟨ts, s, k, v⟩, hd⟩ := hdec x (List.mem_cons_self _ _)
    rw [parseLines_cons_of_ok l x xs (parseLine_ok_of_decode l x ts s k v hd)]
    exact ih (fun y hy => hdec y (List.mem_cons_of_mem _ hy)) _

theorem lastOf_cons (x : Str) (xs : List Str) (sid key ts s k v : Str)
    (hd : decode x = Except.ok (ts, s, k, v)) :
    lastOf (x :: xs) sid key =
      if s = sid ∧ k = key then some ((lastOf xs sid key).getD (ts, v))
      else lastOf xs sid key := by
  unfold lastOf
  rw [List.filterMap_cons, hd]
  simp only
  split_ifs with h
  · simp only
    rw [List.getLast?_cons]
  · rfl

/-- The last write wins, for a field `g` that the dispatch writes for the key `key` only, with
`pick` of the timestamp and the value of the line. -/
theorem last_write_generic (g : Session → Str) (key : Str) (pick : Str × Str → Str)
    (hg : ∀ r ts k v, g (Session.assign r ts k v) = if k = key then pick (ts, v) else g r)
    (sid : Str) (lines : List Str) (hdec : ∀ x ∈ lines, ∃ d, decode x = Except.ok d) :
    ∀ l : Logs,
      g (((l.parseLines lines).1.Sessions.lookup sid).getD { SessionID := sid }) =
        ((lastOf lines sid key).map pick).getD
          (g ((l.Sessions.lookup sid).getD { SessionID := sid })) := by
  induction lines with
  | nil => intro l; rfl
  | cons x xs ih =>
    intro l
    obtain ⟨⟨ts, s, k, v⟩, hd⟩ := hdec x (List.mem_cons_self _ _)
    rw [parseLines_cons_of_ok l x xs (parseLine_ok_of_decode l x ts s k v hd),
      ih (fun y hy => hdec y (List.mem_cons_of_mem _ hy))]
    have hbase : ((l.parseLine x).1.Sessions.lookup sid).getD { SessionID := sid } =
        if sid = s then
          Session.assign ((l.Sessions.lookup sid).getD { SessionID := sid }) ts k v
        else (l.Sessions.lookup sid).getD { SessionID := sid } := by
      rw [parseLine_lookup l x ts s k v sid hd]
      split_ifs with hs
      · subst hs; rfl
      · rfl
    rw [hbase, lastOf_cons x xs sid key ts s k v hd]
    by_cases hm : s = sid ∧ k = key
    · obtain ⟨rfl, rfl⟩ := hm
      simp only [and_self, if_true, hg]
      cases lastOf xs s k <;> rfl
    · rw [if_neg hm]
      split_ifs with hs
      · subst hs
        have hk : ¬ k = key := fun e => hm ⟨rfl, e⟩
        rw [hg, if_neg hk]
      · rfl

/-- A record stays in the map along lines that decode. -/
theorem parseLines_keeps_record (sid : Str) (lines : List Str)
    (hdec : ∀ x ∈ lines, ∃ d, decode x = Except.ok d) :
    ∀ l : Logs, (∃ r, l.Sessions.lookup sid = some r) →
      ∃ r, (l.parseLines lines).1.Sessions.lookup sid = some r := by
  induction lines with
  | nil => intro l h; exact h
  | cons x xs ih =>
    intro l h
    obtain ⟨⟨ts, s, k, v⟩, hd⟩ := hdec x (List.mem_cons_self _ _)
    rw [parseLines_cons_of_ok l x xs (parseLine_ok_of_decode l x ts s k v hd)]
    apply ih (fun y hy => hdec y (List.mem_cons_of_mem _ hy))
    rw [parseLine_lookup l x ts s k v sid hd]
    split_ifs
    · exact ⟨_, rfl⟩
    · exact h

/-- A session with a line among lines that decode has a record after them. -/
theorem record_of_lastOf (sid key : Str) (lines : List Str)
    (hdec : ∀ x ∈ lines, ∃ d, decode x = Except.ok d) :
    ∀ l : Logs, (lastOf lines sid key).isSome = true →
      ∃ r, (l.parseLines lines).1.Sessions.lookup sid = some r := by
  induction lines with
  | nil => intro l h; exact absurd h (by simp [lastOf])
  | cons x xs ih =>
    intro l h
    obtain ⟨⟨ts, s, k, v⟩, hd⟩ := hdec x (List.mem_cons_self _ _)
    have hxs : ∀ y ∈ xs, ∃ d, decode y = Except.ok d :=
      fun y hy => hdec y (List.mem_cons_of_mem _ hy)
    rw [parseLines_cons_of_ok l x xs (parseLine_ok_of_decode l x ts s k v hd)]
    rw [lastOf_cons x xs sid key ts s k v hd] at h
    split_ifs at h with hm
    · apply parseLines_keeps_record sid xs hxs
      rw [parseLine_lookup l x ts s k v sid hd, if_pos hm.1.symm]
      exact ⟨_, rfl⟩
    · exact ih hxs _ h

theorem isSessionFull_iff (s : Session) :
    s.isSessionFull = true ↔
      (s.Time.Start ≠ [] ∧ s.Time.Duration ≠ [] ∧ s.Client ≠ [] ∧ s.MessageID ≠ [] ∧
        s.SessionID ≠ [] ∧ s.Status ≠ [] ∧ s.Address.From ≠ [] ∧ s.Address.To ≠ []) := by
  unfold Session.isSessionFull
  split_ifs with h
  · simp only [Bool.false_eq_true, false_iff]
    tauto
  · simp only [true_iff]
    tauto

theorem mem_records_iff (l : Logs) (s : Session) :
    s ∈ l.records ↔ ∃ k, l.Sessions.lookup k = some s := by
  unfold Logs.records
  rw [Multiset.mem_map]
  constructor
  · rintro ⟨⟨k, r⟩, hmem, rfl⟩
    exact ⟨k, Finmap.mem_lookup_iff.mpr hmem⟩
  · rintro ⟨k, hk⟩
    exact ⟨⟨k, s⟩, Finmap.mem_lookup_iff.mp hk, rfl⟩

theorem mem_getFullSessions_iff (l : Logs) (s : Session) :
    s ∈ l.getFullSessions ↔ s ∈ l.records ∧ s.isSessionFull = true := by
  unfold Logs.getFullSessions
  exact Multiset.mem_filter

/-! ## C1 -/

/-- C1: `getFullSessions` returns exactly the records of the map whose eight fields
`Time.Start`, `Time.Duration`, `Client`, `MessageID`, `SessionID`, `Status`, `Address.From` and
`Address.To` are all non-empty. Every record occurs in the result as often as it occurs among
the records of the map when the eight fields are non-empty, and not at all otherwise; a record
stored under a key is in the result if and only if its eight fields are non-empty; and every
record of the result is stored under some key. -/
theorem getFullSessions_exactly_full (l : Logs) :
    (∀ s : Session, Multiset.count s l.getFullSessions =
      if s.Time.Start ≠ [] ∧ s.Time.Duration ≠ [] ∧ s.Client ≠ [] ∧ s.MessageID ≠ [] ∧
          s.SessionID ≠ [] ∧ s.Status ≠ [] ∧ s.Address.From ≠ [] ∧ s.Address.To ≠ [] then
        Multiset.count s l.records
      else 0) ∧
    (∀ (k : Str) (s : Session), l.Sessions.lookup k = some s →
      (s ∈ l.getFullSessions ↔
        (s.Time.Start ≠ [] ∧ s.Time.Duration ≠ [] ∧ s.Client ≠ [] ∧ s.MessageID ≠ [] ∧
          s.SessionID ≠ [] ∧ s.Status ≠ [] ∧ s.Address.From ≠ [] ∧ s.Address.To ≠ []))) ∧
    (∀ s ∈ l.getFullSessions, ∃ k, l.Sessions.lookup k = some s) := by
  refine ⟨fun s => ?_, fun k s hk => ?_, fun s hs => ?_⟩
  · unfold Logs.getFullSessions
    by_cases hf : s.isSessionFull = true
    · rw [Multiset.count_filter_of_pos (p := fun s : Session => s.isSessionFull = true) hf,
        if_pos ((isSessionFull_iff s).mp hf)]
    · rw [Multiset.count_filter_of_neg (p := fun s : Session => s.isSessionFull = true) hf,
        if_neg (fun h => hf ((isSessionFull_iff s).mpr h))]
  · rw [mem_getFullSessions_iff, isSessionFull_iff]
    exact ⟨fun h => h.2, fun h => ⟨(mem_records_iff l s).mpr ⟨k, hk⟩, h⟩⟩
  · exact (mem_records_iff l s).mp ((mem_getFullSessions_iff l s).mp hs).1

/-! ## C2 -/

/-- C2: for every session map and every line whose normalized form splits into the three
tokens `timestamp`, `sessionID`, `fieldSpec`, with `fieldSpec` splitting into `key` and `value`
and `key` one of the five recognized keys, `parseLine` returns no error; the record of every
other session is unchanged; and the record `r'` of `sessionID` afterwards differs from its
record `r` before (or from a fresh record holding only `sessionID`) as follows: `client` sets
`Time.Start` to the timestamp and `Client` to the value, `message-id` sets `MessageID`, `from`
sets `Address.From`, `to` sets `Address.To`, and `status` sets `Status` to the value,
`Time.end` to the timestamp and `Time.Duration` to what `SetDuration` computes from the
record's `Time` with the new `end`. -/
theorem parseLine_recognized_key (l : Logs) (line timestamp sessionID fieldSpec key value : Str)
    (hline : Split (ReplaceAllString line) ' ' = [timestamp, sessionID, fieldSpec])
    (hfield : Split fieldSpec '=' = [key, value])
    (hkey : key ∈ ["client".toList, "message-id".toList, "from".toList, "to".toList,
      "status".toList]) :
    (l.parseLine line).2 = none ∧
    (∀ k, k ≠ sessionID → (l.parseLine line).1.Sessions.lookup k = l.Sessions.lookup k) ∧
    ∃ r r' : Session,
      r = (l.Sessions.lookup sessionID).getD { SessionID := sessionID } ∧
      (l.parseLine line).1.Sessions.lookup sessionID = some r' ∧
      (key = "client".toList →
        r' = { r with Time := { r.Time with Start := timestamp }, Client := value }) ∧
      (key = "message-id".toList → r' = { r with MessageID := value }) ∧
      (key = "from".toList → r' = { r with Address := { r.Address with From := value } }) ∧
      (key = "to".toList → r' = { r with Address := { r.Address with To := value } }) ∧
      (key = "status".toList →
        r' = { r with
          Status := value,
          Time := { r.Time with
            «end» := timestamp,
            Duration :=
              (Time.SetDuration { r.Time with «end» := timestamp }).1.Duration } }) := by
  have hdec : decode line = Except.ok (timestamp, sessionID, key, value) :=
    (decode_ok_iff _ _ _ _ _).mpr ⟨fieldSpec, hline, hfield⟩
  refine ⟨?_, fun k hk => ?_, (l.Sessions.lookup sessionID).getD { SessionID := sessionID },
    ((l.Sessions.lookup sessionID).getD { SessionID := sessionID }).assign timestamp key value,
    rfl, ?_, ?_⟩
  · rw [parseLine_snd, hdec]
  · rw [parseLine_lookup l line _ _ _ _ k hdec, if_neg hk]
  · rw [parseLine_lookup l line _ _ _ _ sessionID hdec, if_pos rfl]
  · refine ⟨?_, ?_, ?_, ?_, ?_⟩ <;> intro hk <;> subst hk
    · simp [Session.assign]
    · simp [Session.assign]
    · simp [Session.assign]
    · simp [Session.assign]
    · have hs := SetDuration_fst
        { ((l.Sessions.lookup sessionID).getD { SessionID := sessionID }).Time with
          «end» := timestamp }
      simp only [Session.assign]
      rw [if_neg (show ¬ "status".toList = "client".toList by decide),
        if_neg (show ¬ "status".toList = "message-id".toList by decide),
        if_neg (show ¬ "status".toList = "from".toList by decide),
        if_neg (show ¬ "status".toList = "to".toList by decide), if_pos trivial]
      congr 1

/-- C2 at the line `t1 A status=sent` on the empty map. -/
theorem parseLine_recognized_key_witness :
    (Logs.empty.parseLine "t1 A status=sent".toList).2 = none ∧
    (∀ k, k ≠ "A".toList →
      (Logs.empty.parseLine "t1 A status=sent".toList).1.Sessions.lookup k =
        Logs.empty.Sessions.lookup k) :=
  let h := parseLine_recognized_key Logs.empty "t1 A status=sent".toList "t1".toList "A".toList
    "status=sent".toList "status".toList "sent".toList (by decide) (by decide) (by decide)
  ⟨h.1, h.2.1⟩

/-! ## C3 -/

/-- C3, as the code has it: for every line whose normalized form has exactly three tokens, the
third token is split on EVERY `=`. Decoding succeeds if and only if the third token contains
exactly one `=`, and then the key is the text before that `=` and the value the text after it,
neither of which contains `=`; `parseLine` returns the malformed-field error, naming the third
token, if and only if the number of `=` in the third token is not one. -/
theorem fieldSpec_splits_iff_one_eq (l : Logs) (line timestamp sessionID fieldSpec : Str)
    (hline : Split (ReplaceAllString line) ' ' = [timestamp, sessionID, fieldSpec]) :
    ((l.parseLine line).2 = some (Error.malformedField fieldSpec) ↔ fieldSpec.count '=' ≠ 1) ∧
    ((l.parseLine line).2 = none ↔ fieldSpec.count '=' = 1) ∧
    (fieldSpec.count '=' = 1 →
      decode line = Except.ok (timestamp, sessionID, fieldSpec.takeWhile (fun d => d ≠ '='),
        (fieldSpec.dropWhile (fun d => d ≠ '=')).drop 1) ∧
      fieldSpec = fieldSpec.takeWhile (fun d => d ≠ '=') ++
        '=' :: (fieldSpec.dropWhile (fun d => d ≠ '=')).drop 1 ∧
      '=' ∉ fieldSpec.takeWhile (fun d => d ≠ '=') ∧
      '=' ∉ (fieldSpec.dropWhile (fun d => d ≠ '=')).drop 1) := by
  have hlen := length_Split fieldSpec '='
  by_cases hc : fieldSpec.count '=' = 1
  · have hpair : Split fieldSpec '=' = [fieldSpec.takeWhile (fun d => d ≠ '='),
        (fieldSpec.dropWhile (fun d => d ≠ '=')).drop 1] :=
      (Split_eq_pair_iff _ _ _ _).mpr ⟨hc, rfl, rfl⟩
    have hdec := (decode_ok_iff line timestamp sessionID _ _).mpr ⟨fieldSpec, hline, hpair⟩
    have hmem : '=' ∈ fieldSpec := List.count_pos_iff.mp (by omega)
    have hsplit := eq_takeWhile_sep_drop fieldSpec '=' hmem
    have hnone : (l.parseLine line).2 = none := by rw [parseLine_snd, hdec]
    refine ⟨?_, ?_, fun _ => ⟨hdec, hsplit, not_mem_takeWhile_ne _ _, ?_⟩⟩
    · rw [hnone]
      simp [hc]
    · simp [hnone, hc]
    · intro hin
      have h2 := List.count_pos_iff.mpr hin
      have hcnt := congrArg (List.count '=') hsplit
      rw [List.count_append, List.count_cons_self] at hcnt
      omega
  · have herr := parseLine_of_not_pair l line timestamp sessionID fieldSpec hline (by omega)
    refine ⟨?_, ?_, fun h => absurd h hc⟩
    · simp [herr, hc]
    · simp [herr, hc]

/-- C3 at the line `t A to=b`. -/
theorem fieldSpec_splits_iff_one_eq_witness :
    (Logs.empty.parseLine "t A to=b".toList).2 = none ↔ "to=b".toList.count '=' = 1 :=
  (fieldSpec_splits_iff_one_eq Logs.empty "t A to=b".toList "t".toList "A".toList
    "to=b".toList (by decide)).2.1

/-- C3 fails as stated: the normalized form of `t A to=a=b` has the three tokens `t`, `A` and
`to=a=b`, the third token contains `=`, and yet `parseLine` returns the malformed-field error
for it instead of decoding the key `to` with the value `a=b`. -/
theorem fieldSpec_with_two_eq_is_malformed :
    Split (ReplaceAllString "t A to=a=b".toList) ' ' =
      ["t".toList, "A".toList, "to=a=b".toList] ∧
    '=' ∈ "to=a=b".toList ∧
    Split "to=a=b".toList '=' = ["to".toList, "a".toList, "b".toList] ∧
    (Logs.empty.parseLine "t A to=a=b".toList).2 =
      some (Error.malformedField "to=a=b".toList) := by
  refine ⟨by decide, by decide, by decide, ?_⟩
  rw [parseLine_snd]
  rfl

/-! ## C4 -/

/-- C4: `parseLine` returns the malformed-line error, naming the normalized line, if and only if
splitting the normalized line on the space does not yield exactly three tokens, where the
number of tokens is one more than the number of spaces of the normalized line (so empty tokens
count). When it yields exactly three tokens, they are taken in order as timestamp, session
identifier and field specification: the second is a key of the map afterwards, the error, if
any, is the malformed-field error naming the third, and when the third is `client=value` the
record of the second gets the first as `Time.Start`. -/
theorem parseLine_malformedLine_iff (l : Logs) (line : Str) :
    ((∃ e, (l.parseLine line).2 = some (Error.malformedLine e)) ↔
      (Split (ReplaceAllString line) ' ').length ≠ 3) ∧
    (∀ e, (l.parseLine line).2 = some (Error.malformedLine e) → e = ReplaceAllString line) ∧
    (Split (ReplaceAllString line) ' ').length = (ReplaceAllString line).count ' ' + 1 ∧
    (∀ timestamp sessionID fieldSpec : Str,
      Split (ReplaceAllString line) ' ' = [timestamp, sessionID, fieldSpec] →
        sessionID ∈ (l.parseLine line).1.Sessions ∧
        ((l.parseLine line).2 = none ∨
          (l.parseLine line).2 = some (Error.malformedField fieldSpec)) ∧
        (∀ key value, Split fieldSpec '=' = [key, value] →
          decode line = Except.ok (timestamp, sessionID, key, value)) ∧
        (∀ value, Split fieldSpec '=' = ["client".toList, value] →
          ∃ r, (l.parseLine line).1.Sessions.lookup sessionID = some r ∧
            r.Time.Start = timestamp ∧ r.Client = value)) := by
  have hthree : ∀ timestamp sessionID fieldSpec : Str,
      Split (ReplaceAllString line) ' ' = [timestamp, sessionID, fieldSpec] →
      ((l.parseLine line).2 = none ∨
        (l.parseLine line).2 = some (Error.malformedField fieldSpec)) ∧
      sessionID ∈ (l.parseLine line).1.Sessions := by
    intro ts sid spec hline
    by_cases hp : (Split spec '=').length = 2
    · obtain ⟨key, value, hkv⟩ : ∃ key value, Split spec '=' = [key, value] := by
        match Split spec '=', hp with
        | [a, b], _ => exact ⟨a, b, rfl⟩
      have hdec := (decode_ok_iff line ts sid key value).mpr ⟨spec, hline, hkv⟩
      refine ⟨Or.inl (by rw [parseLine_snd, hdec]), ?_⟩
      apply Finmap.mem_of_lookup_eq_some
      rw [parseLine_lookup l line ts sid key value sid hdec, if_pos rfl]
    · rw [parseLine_of_not_pair l line ts sid spec hline hp]
      refine ⟨Or.inr rfl, ?_⟩
      apply Finmap.mem_of_lookup_eq_some
      rw [lookup_addIfNew, if_pos rfl]
  refine ⟨⟨?_, ?_⟩, ?_, length_Split _ _, ?_⟩
  · rintro ⟨e, he⟩ hlen
    obtain ⟨a, b, c, habc⟩ := (length_eq_three_iff _).mp hlen
    rcases (hthree a b c habc).1 with h | h <;> rw [h] at he <;> simp at he
  · intro hlen
    exact ⟨_, by rw [parseLine_of_not_three l line hlen]⟩
  · intro e he
    by_cases hlen : (Split (ReplaceAllString line) ' ').length = 3
    · obtain ⟨a, b, c, habc⟩ := (length_eq_three_iff _).mp hlen
      rcases (hthree a b c habc).1 with h | h <;> rw [h] at he <;> simp at he
    · rw [parseLine_of_not_three l line hlen] at he
      simp only [Option.some.injEq, Error.malformedLine.injEq] at he
      exact he.symm
  · intro ts sid spec hline
    refine ⟨(hthree ts sid spec hline).2, (hthree ts sid spec hline).1, ?_, ?_⟩
    · intro key value hkv
      exact (decode_ok_iff line ts sid key value).mpr ⟨spec, hline, hkv⟩
    · intro value hkv
      have hdec := (decode_ok_iff line ts sid _ value).mpr ⟨spec, hline, hkv⟩
      refine ⟨_, parseLine_lookup l line ts sid _ value sid hdec |>.trans (if_pos rfl), ?_, ?_⟩
      · simp [Session.assign]
      · simp [Session.assign]

/-! ## C5 -/

/-- C5, as the code has it: when the start and the end timestamp both parse, `SetDuration`
computes `parse(end) - parse(start)`: the local named `tStart` holds the parsed END (status)
timestamp and the local named `tEnd` the parsed START (client) timestamp, so `tStart.Sub(tEnd)`
subtracts the earlier client timestamp from the later status timestamp. For every pair where
the status timestamp is later than the client timestamp by `d` with `0 < d < 24h`, the duration
string denotes `d` itself, the true elapsed time. -/
theorem SetDuration_is_end_minus_start (t : Time) (a b : time.Time)
    (ha : time.Parse t.Start = some a) (hb : time.Parse t.«end» = some b)
    (hd : 0 < b.since a ∧ b.since a < 86400000000000) :
    t.SetDuration = ({ t with Duration := formatElapsed (b.since a).toNat }, none) := by
  rw [SetDuration_of_parse t a b ha hb, zero_Add_Format,
    Sub_of_fits b a (by unfold time.minDuration time.maxDuration; omega)]
  have hmod : b.since a % 86400000000000 = b.since a := Int.emod_eq_of_lt (by omega) hd.2
  rw [hmod]

/-- C5 at the scenario of the specification: client at 10:00:00, status at 10:00:05. -/
theorem SetDuration_is_end_minus_start_witness :
    Time.SetDuration { Start := "2021-01-01T10:00:00.000000".toList,
                       «end» := "2021-01-01T10:00:05.000000".toList } =
      ({ Start := "2021-01-01T10:00:00.000000".toList,
         «end» := "2021-01-01T10:00:05.000000".toList,
         Duration := formatElapsed 5000000000 }, none) :=
  SetDuration_is_end_minus_start
    { Start := "2021-01-01T10:00:00.000000".toList,
      «end» := "2021-01-01T10:00:05.000000".toList }
    (time.Date 2021 1 1 10 0 0 0) (time.Date 2021 1 1 10 0 5 0)
    (by decide) (by decide) (by decide)

/-- C5 fails as stated: ingesting the client line at 10:00:00 and then the status line at
10:00:05 of the scenario leaves the record of `A` with the duration `00:00:05`, the elapsed
time, and not `23:59:55`. -/
theorem scenario_duration_is_five_seconds :
    (Logs.empty.parseLines
      ["2021-01-01T10:00:00.000000 A client=foo".toList,
       "2021-01-01T10:00:05.000000 A status=sent".toList]).1.Sessions.lookup "A".toList =
      some { Time := { Start := "2021-01-01T10:00:00.000000".toList,
                       «end» := "2021-01-01T10:00:05.000000".toList,
                       Duration := "00:00:05".toList },
             SessionID := "A".toList, Client := "foo".toList, Status := "sent".toList } ∧
    formatElapsed (86400000000000 - 5000000000) = "23:59:55".toList ∧
    "00:00:05".toList ≠ "23:59:55".toList := by
  refine ⟨by decide, by decide, by decide⟩

/-! ## C6 -/

/-- C6, as the code has it: for every pair of start and end timestamps that parse and whose
difference fits a `Duration`, the duration string is the time of day of the zero time plus
`end - start`, that is the signed difference `end - start` reduced modulo 24 hours into
`[0h, 24h)` and formatted as `HH:MM:SS[.ffffff]`; its hours field is below 24. -/
theorem SetDuration_is_difference_mod_day (t : Time) (a b : time.Time)
    (ha : time.Parse t.Start = some a) (hb : time.Parse t.«end» = some b)
    (hfit : time.minDuration ≤ b.since a ∧ b.since a ≤ time.maxDuration) :
    t.SetDuration =
      ({ t with Duration := formatElapsed (b.since a % 86400000000000).toNat }, none) ∧
    (b.since a % 86400000000000).toNat / 3600000000000 < 24 := by
  refine ⟨?_, by omega⟩
  rw [SetDuration_of_parse t a b ha hb, zero_Add_Format, Sub_of_fits b a hfit]

/-- C6 at two timestamps 25 hours apart: the duration is that of one hour. -/
theorem SetDuration_is_difference_mod_day_witness :
    Time.SetDuration { Start := "2021-01-01T10:00:00".toList,
                       «end» := "2021-01-02T11:00:00".toList } =
      ({ Start := "2021-01-01T10:00:00".toList, «end» := "2021-01-02T11:00:00".toList,
         Duration := formatElapsed 3600000000000 }, none) :=
  (SetDuration_is_difference_mod_day
    { Start := "2021-01-01T10:00:00".toList, «end» := "2021-01-02T11:00:00".toList }
    (time.Date 2021 1 1 10 0 0 0) (time.Date 2021 1 2 11 0 0 0)
    (by decide) (by decide) (by decide)).1

/-- C6 fails as stated: for the start 2021-01-01T10:00:00 and the end 2021-01-02T11:00:00,
25 hours later, the duration string is `01:00:00`, with the hours field 01 and not 25; and with
the two timestamps swapped it is `23:00:00`, another string. -/
theorem duration_of_25_hours_wraps :
    (Time.SetDuration { Start := "2021-01-01T10:00:00".toList,
                        «end» := "2021-01-02T11:00:00".toList }).1.Duration =
      "01:00:00".toList ∧
    (Time.SetDuration { Start := "2021-01-02T11:00:00".toList,
                        «end» := "2021-01-01T10:00:00".toList }).1.Duration =
      "23:00:00".toList ∧
    (time.Date 2021 1 2 11 0 0 0).since (time.Date 2021 1 1 10 0 0 0) =
      25 * 3600000000000 := by
  refine ⟨by decide, by decide, by decide⟩

/-! ## C7 -/

/-- C7 does not hold of the code: `parseLine` calls `SetDuration` without looking at the error
it returns, so no call of `parseLine` returns a timestamp parse error. For the client line
`2021-01-01T10:00:00.000000 A client=foo` followed by the status line
`2021-01-01_10:00:05 A status=sent`, `SetDuration` fails on the record of `A` with the parse
error of the end timestamp, and yet both calls of `parseLine` return no error and the record
is left with an empty duration. -/
theorem parseLine_drops_SetDuration_error :
    (∀ (l : Logs) (line value : Str),
      (l.parseLine line).2 ≠ some (Error.timestampParse value)) ∧
    (Time.SetDuration { Start := "2021-01-01T10:00:00.000000".toList,
                        «end» := "2021-01-01_10:00:05".toList }).2 =
      some (Error.timestampParse "2021-01-01_10:00:05".toList) ∧
    (Logs.empty.parseLines
      ["2021-01-01T10:00:00.000000 A client=foo".toList,
       "2021-01-01_10:00:05 A status=sent".toList]).2 = none ∧
    (Logs.empty.parseLines
      ["2021-01-01T10:00:00.000000 A client=foo".toList,
       "2021-01-01_10:00:05 A status=sent".toList]).1.Sessions.lookup "A".toList =
      some { Time := { Start := "2021-01-01T10:00:00.000000".toList,
                       «end» := "2021-01-01_10:00:05".toList,
                       Duration := [] },
             SessionID := "A".toList, Client := "foo".toList, Status := "sent".toList } := by
  refine ⟨fun l line value h => ?_, by decide, by decide, by decide⟩
  rw [parseLine_snd] at h
  unfold decode at h
  simp only at h
  split at h
  · exact Option.noConfusion h
  · rename_i e he
    split at he
    · split at he
      · exact Except.noConfusion he
      · simp only [Except.error.injEq] at he
        subst he
        simp at h
    · simp only [Except.error.injEq] at he
      subst he
      simp at h

/-! ## C8 -/

/-- C8, as the code has it: if, starting from the empty map, a status line of a session is
ingested before any client line of that session, then for every sequence of further
successfully decoded lines in which no status line of that session comes after a client line
of that session, the session has a record whose duration is empty, and that record is not in
`getFullSessions`. (A status line that comes after a later client line computes the duration
like any other.) -/
theorem duration_empty_until_status_after_client (pre post : List Str) (st sid : Str)
    (hok : (Logs.empty.parseLines (pre ++ st :: post)).2 = none)
    (hpre : ∀ x ∈ pre, isLineOf sid "client".toList x = false)
    (hst : isLineOf sid "status".toList st = true)
    (hpost : post.Pairwise (fun x y =>
      ¬ (isLineOf sid "client".toList x = true ∧ isLineOf sid "status".toList y = true))) :
    ∃ r, (Logs.empty.parseLines (pre ++ st :: post)).1.Sessions.lookup sid = some r ∧
      r.Time.Duration = [] ∧
      r ∉ (Logs.empty.parseLines (pre ++ st :: post)).1.getFullSessions := by
  obtain ⟨hpreok, heq⟩ := parseLines_append_of_ok Logs.empty pre (st :: post) hok
  rw [heq] at hok ⊢
  have hinv := parseLines_keeps_unstarted sid pre Logs.empty hpreok hpre
    (fun r hr => by
      have : Logs.empty.Sessions.lookup sid = none := Finmap.lookup_empty sid
      rw [this] at hr
      exact Option.noConfusion hr)
  have hstok := parseLine_ok_of_parseLines_ok _ st post hok
  rw [parseLines_cons_of_ok _ st post hstok] at hok ⊢
  obtain ⟨ts, s, k, v, hdec⟩ := decode_of_parseLine_ok _ st hstok
  have hsk : s = sid ∧ k = "status".toList := by
    rw [isLineOf_of_decode _ _ st ts s k v hdec] at hst
    simpa using hst
  obtain ⟨rfl, rfl⟩ := hsk
  have hnotclient : isLineOf s "client".toList st = false := by
    have hne : ¬ "status".toList = "client".toList := by decide
    rw [isLineOf_of_decode _ _ st ts s _ v hdec]
    simp [hne]
  have hinv2 := parseLine_keeps_unstarted _ st s hstok hnotclient hinv
  have hex : ∃ r, ((Logs.empty.parseLines pre).1.parseLine st).1.Sessions.lookup s = some r :=
    ⟨_, (parseLine_lookup _ st ts s _ v s hdec).trans (if_pos rfl)⟩
  obtain ⟨r0, hr0⟩ := hex
  obtain ⟨r, hr, hd⟩ := parseLines_keeps_duration_empty s post _ hok hpost
    ⟨r0, hr0, (hinv2 r0 hr0).2, Or.inl (hinv2 r0 hr0).1⟩
  refine ⟨r, hr, hd, fun hmem => ?_⟩
  have hfull := ((mem_getFullSessions_iff _ r).mp hmem).2
  exact ((isSessionFull_iff r).mp hfull).2.1 hd

/-- C8 at the lines of `A`: a status line first, then another status line, a client line and a
`from` line. -/
theorem duration_empty_until_status_after_client_witness :
    ∃ r, (Logs.empty.parseLines (["t0 B client=x".toList] ++ "t1 A status=s".toList ::
        ["t2 A status=z".toList, "2021-01-01T10:00:00 A client=c".toList,
         "t3 A from=f".toList])).1.Sessions.lookup "A".toList = some r ∧
      r.Time.Duration = [] ∧
      r ∉ (Logs.empty.parseLines (["t0 B client=x".toList] ++ "t1 A status=s".toList ::
        ["t2 A status=z".toList, "2021-01-01T10:00:00 A client=c".toList,
         "t3 A from=f".toList])).1.getFullSessions :=
  duration_empty_until_status_after_client ["t0 B client=x".toList]
    ["t2 A status=z".toList, "2021-01-01T10:00:00 A client=c".toList, "t3 A from=f".toList]
    "t1 A status=s".toList "A".toList (by decide) (by decide) (by decide) (by decide)

/-- C8 fails as stated: from the empty map, the first line of `A` is a status line, with no
client line before it; after the further lines (a client line, a second status line,
`message-id`, `from` and `to`), all of which decode, the record of `A` has the duration
`00:00:09` and is the one session of `getFullSessions`. -/
theorem status_after_late_client_sets_duration :
    (Logs.empty.parseLines
      ["2021-01-01T10:00:05 A status=sent".toList,
       "2021-01-01T10:00:00 A client=foo".toList,
       "2021-01-01T10:00:09 A status=sent".toList,
       "2021-01-01T10:00:09 A message-id=m1".toList,
       "2021-01-01T10:00:09 A from=a@x".toList,
       "2021-01-01T10:00:09 A to=b@x".toList]).2 = none ∧
    (Logs.empty.parseLines
      ["2021-01-01T10:00:05 A status=sent".toList,
       "2021-01-01T10:00:00 A client=foo".toList,
       "2021-01-01T10:00:09 A status=sent".toList,
       "2021-01-01T10:00:09 A message-id=m1".toList,
       "2021-01-01T10:00:09 A from=a@x".toList,
       "2021-01-01T10:00:09 A to=b@x".toList]).1.getFullSessions =
      {{ Time := { Start := "2021-01-01T10:00:00".toList,
                   «end» := "2021-01-01T10:00:09".toList,
                   Duration := "00:00:09".toList },
         SessionID := "A".toList, Client := "foo".toList, MessageID := "m1".toList,
         Address := { From := "a@x".toList, To := "b@x".toList },
         Status := "sent".toList }} := by
  set_option maxRecDepth 100000 in
  refine ⟨by decide, by decide⟩

/-! ## C9 -/

/-- C9: last write wins. For every sequence of lines that all decode, processed from the empty
map, no line produces an error, and for every session `sid` with a record `r` at the end:
`Client`, `MessageID`, `Address.From`, `Address.To` and `Status` of `r` are the value carried by
the last line of the sequence with the session `sid` and the key `client`, `message-id`, `from`,
`to` and `status` respectively, and are empty if there is no such line; `Time.Start` is the
timestamp of the last client line of `sid`. A session that has a line with some key has a
record at the end. -/
theorem last_write_wins (lines : List Str)
    (hdec : ∀ x ∈ lines, ∃ d, decode x = Except.ok d) :
    (Logs.empty.parseLines lines).2 = none ∧
    (∀ (sid : Str) (r : Session),
      (Logs.empty.parseLines lines).1.Sessions.lookup sid = some r →
        r.Client = ((lastOf lines sid "client".toList).map Prod.snd).getD [] ∧
        r.MessageID = ((lastOf lines sid "message-id".toList).map Prod.snd).getD [] ∧
        r.Address.From = ((lastOf lines sid "from".toList).map Prod.snd).getD [] ∧
        r.Address.To = ((lastOf lines sid "to".toList).map Prod.snd).getD [] ∧
        r.Status = ((lastOf lines sid "status".toList).map Prod.snd).getD [] ∧
        r.Time.Start = ((lastOf lines sid "client".toList).map Prod.fst).getD []) ∧
    (∀ sid key : Str, (lastOf lines sid key).isSome = true →
      ∃ r, (Logs.empty.parseLines lines).1.Sessions.lookup sid = some r) := by
  refine ⟨parseLines_ok_of_decode lines hdec _, fun sid r hr => ?_,
    fun sid key h => record_of_lastOf sid key lines hdec _ h⟩
  have hempty : (Logs.empty.Sessions.lookup sid).getD { SessionID := sid } =
      { SessionID := sid } := by
    have : Logs.empty.Sessions.lookup sid = none := Finmap.lookup_empty sid
    rw [this]
    rfl
  have hfin : ((Logs.empty.parseLines lines).1.Sessions.lookup sid).getD { SessionID := sid } =
      r := by
    rw [hr]
    rfl
  have h1 := last_write_generic (fun r => r.Client) "client".toList Prod.snd
    (fun r ts k v => assign_Client r ts k v) sid lines hdec Logs.empty
  have h2 := last_write_generic (fun r => r.MessageID) "message-id".toList Prod.snd
    (fun r ts k v => assign_MessageID r ts k v) sid lines hdec Logs.empty
  have h3 := last_write_generic (fun r => r.Address.From) "from".toList Prod.snd
    (fun r ts k v => assign_From r ts k v) sid lines hdec Logs.empty
  have h4 := last_write_generic (fun r => r.Address.To) "to".toList Prod.snd
    (fun r ts k v => assign_To r ts k v) sid lines hdec Logs.empty
  have h5 := last_write_generic (fun r => r.Status) "status".toList Prod.snd
    (fun r ts k v => assign_Status r ts k v) sid lines hdec Logs.empty
  have h6 := last_write_generic (fun r => r.Time.Start) "client".toList Prod.fst
    (fun r ts k v => assign_Start r ts k v) sid lines hdec Logs.empty
  rw [hfin, hempty] at h1 h2 h3 h4 h5 h6
  exact ⟨h1, h2, h3, h4, h5, h6⟩

/-- C9 at four lines of `A` and `B` with two client lines and two `to` lines of `A`. -/
theorem last_write_wins_witness :
    (Logs.empty.parseLines
      ["t1 A client=c1".toList, "t2 B to=x".toList, "t3 A to=y".toList,
       "t4 A client=c2".toList, "t5 A to=z".toList]).2 = none ∧
    ((lastOf ["t1 A client=c1".toList, "t2 B to=x".toList, "t3 A to=y".toList,
       "t4 A client=c2".toList, "t5 A to=z".toList] "A".toList "client".toList).map
        Prod.snd).getD [] = "c2".toList ∧
    ((lastOf ["t1 A client=c1".toList, "t2 B to=x".toList, "t3 A to=y".toList,
       "t4 A client=c2".toList, "t5 A to=z".toList] "A".toList "to".toList).map
        Prod.snd).getD [] = "z".toList ∧
    (Logs.empty.parseLines
      ["t1 A client=c1".toList, "t2 B to=x".toList, "t3 A to=y".toList,
       "t4 A client=c2".toList, "t5 A to=z".toList]).1.Sessions.lookup "A".toList =
      some { Time := { Start := "t4".toList }, SessionID := "A".toList,
             Client := "c2".toList, Address := { To := "z".toList } } :=
  ⟨(last_write_wins
      ["t1 A client=c1".toList, "t2 B to=x".toList, "t3 A to=y".toList,
       "t4 A client=c2".toList, "t5 A to=z".toList]
      (by
        intro x hx
        simp only [List.mem_cons, List.mem_singleton, List.not_mem_nil, or_false] at hx
        rcases hx with rfl | rfl | rfl | rfl | rfl <;> exact ⟨_, rfl⟩)).1,
    by decide, by decide, by decide⟩

/-! ## C10 -/

/-- C10: for every session map and every line that splits into three tokens with a third token
that splits into `key` and `value`, where `key` is none of `client`, `message-id`, `from`, `to`
and `status` (compared exactly), `parseLine` returns no error and every record that was in the
map is in the map afterwards, under the same key and with every field unchanged. -/
theorem parseLine_unrecognized_key (l : Logs) (line timestamp sessionID fieldSpec key value : Str)
    (hline : Split (ReplaceAllString line) ' ' = [timestamp, sessionID, fieldSpec])
    (hfield : Split fieldSpec '=' = [key, value])
    (hkey : key ∉ ["client".toList, "message-id".toList, "from".toList, "to".toList,
      "status".toList]) :
    (l.parseLine line).2 = none ∧
    ∀ (k : Str) (r : Session), l.Sessions.lookup k = some r →
      (l.parseLine line).1.Sessions.lookup k = some r := by
  have hdec : decode line = Except.ok (timestamp, sessionID, key, value) :=
    (decode_ok_iff _ _ _ _ _).mpr ⟨fieldSpec, hline, hfield⟩
  simp only [List.mem_cons, List.mem_singleton, List.not_mem_nil, or_false, not_or] at hkey
  obtain ⟨h1, h2, h3, h4, h5⟩ := hkey
  refine ⟨by rw [parseLine_snd, hdec], fun k r hk => ?_⟩
  rw [parseLine_lookup l line _ _ _ _ k hdec]
  split_ifs with hks
  · subst hks
    rw [hk]
    simp only [Option.getD_some, Session.assign, if_neg h1, if_neg h2, if_neg h3, if_neg h4,
      if_neg h5]
  · exact hk

/-- C10 at the line `t A Client=foo`, whose key differs from `client` by its case, on the map
that holds a record for `A`. -/
theorem parseLine_unrecognized_key_witness :
    ((Logs.empty.parseLine "t0 A client=bar".toList).1.parseLine "t A Client=foo".toList).2 =
      none ∧
    ∀ (k : Str) (r : Session),
      (Logs.empty.parseLine "t0 A client=bar".toList).1.Sessions.lookup k = some r →
      ((Logs.empty.parseLine "t0 A client=bar".toList).1.parseLine
        "t A Client=foo".toList).1.Sessions.lookup k = some r :=
  parseLine_unrecognized_key (Logs.empty.parseLine "t0 A client=bar".toList).1
    "t A Client=foo".toList "t".toList "A".toList "Client=foo".toList "Client".toList
    "foo".toList (by decide) (by decide) (by decide)

/-! ## The step on any line -/

/-- The three outcomes of `parseLine`: the line does not split into three tokens and the map is
untouched; or its third token does not split in two and the session is added if new; or the
line decodes. -/
theorem parseLine_cases (l : Logs) (line : Str) :
    ((Split (ReplaceAllString line) ' ').length ≠ 3 ∧
      l.parseLine line = (l, some (Error.malformedLine (ReplaceAllString line)))) ∨
    (∃ ts sid f, Split (ReplaceAllString line) ' ' = [ts, sid, f] ∧
      (Split f '=').length ≠ 2 ∧
      l.parseLine line = (l.addIfNew sid, some (Error.malformedField f))) ∨
    (∃ ts sid f k v, Split (ReplaceAllString line) ' ' = [ts, sid, f] ∧
      Split f '=' = [k, v] ∧ decode line = Except.ok (ts, sid, k, v)) := by
  by_cases h3 : (Split (ReplaceAllString line) ' ').length = 3
  · obtain ⟨ts, sid, f, hline⟩ := (length_eq_three_iff _).mp h3
    by_cases h2 : (Split f '=').length = 2
    · obtain ⟨k, v, hkv⟩ : ∃ k v, Split f '=' = [k, v] := by
        match Split f '=', h2 with
        | [a, b], _ => exact ⟨a, b, rfl⟩
      exact Or.inr (Or.inr ⟨ts, sid, f, k, v, hline, hkv,
        (decode_ok_iff line ts sid k v).mpr ⟨f, hline, hkv⟩⟩)
    · exact Or.inr (Or.inl ⟨ts, sid, f, hline, h2, parseLine_of_not_pair l line ts sid f hline h2⟩)
  · exact Or.inl ⟨h3, parseLine_of_not_three l line h3⟩

theorem assign_SessionID (r : Session) (ts k v : Str) :
    (r.assign ts k v).SessionID = r.SessionID := by
  unfold Session.assign
  split_ifs <;> rfl

theorem lookup_empty (k : Str) : Logs.empty.Sessions.lookup k = none :=
  Finmap.lookup_empty k

theorem Logs.ext_lookup (l l' : Logs)
    (h : ∀ k, l.Sessions.lookup k = l'.Sessions.lookup k) : l = l' := by
  cases l with
  | mk m =>
    cases l' with
    | mk m' =>
      have : m = m' := Finmap.ext_lookup h
      rw [this]

theorem addIfNew_of_mem (l : Logs) (sid : Str) (h : sid ∈ l.Sessions) : l.addIfNew sid = l := by
  unfold Logs.addIfNew
  rw [if_pos h]

/-! ## C11 -/

/-- C11: for every session map and every line that decodes (three tokens, the third splitting
into key and value) whose session identifier is not a key of the map, after `parseLine` the map
has a record under that identifier whose `SessionID` is the identifier and whose every other
field is empty, apart from the fields the line's own key assigns: `Time.Start` and `Client` for
`client`, `MessageID` for `message-id`, `Address.From` for `from`, `Address.To` for `to`,
`Status` and `Time.end` for `status` (the duration stays empty), and none for any other key. -/
theorem parseLine_new_session (l : Logs) (line timestamp sessionID fieldSpec key value : Str)
    (hline : Split (ReplaceAllString line) ' ' = [timestamp, sessionID, fieldSpec])
    (hfield : Split fieldSpec '=' = [key, value])
    (hnew : sessionID ∉ l.Sessions) :
    ∃ r : Session, (l.parseLine line).1.Sessions.lookup sessionID = some r ∧
      r.SessionID = sessionID ∧
      (key = "client".toList →
        r = { SessionID := sessionID, Time := { Start := timestamp }, Client := value }) ∧
      (key = "message-id".toList → r = { SessionID := sessionID, MessageID := value }) ∧
      (key = "from".toList → r = { SessionID := sessionID, Address := { From := value } }) ∧
      (key = "to".toList → r = { SessionID := sessionID, Address := { To := value } }) ∧
      (key = "status".toList →
        r = { SessionID := sessionID, Time := { «end» := timestamp }, Status := value }) ∧
      (key ∉ ["client".toList, "message-id".toList, "from".toList, "to".toList,
          "status".toList] → r = { SessionID := sessionID }) := by
  have hdec : decode line = Except.ok (timestamp, sessionID, key, value) :=
    (decode_ok_iff _ _ _ _ _).mpr ⟨fieldSpec, hline, hfield⟩
  have hnone : l.Sessions.lookup sessionID = none := Finmap.lookup_eq_none.mpr hnew
  refine ⟨Session.assign { SessionID := sessionID } timestamp key value, ?_, ?_, ?_⟩
  · rw [parseLine_lookup l line _ _ _ _ sessionID hdec, if_pos rfl, hnone]
    rfl
  · rw [assign_SessionID]
  · refine ⟨?_, ?_, ?_, ?_, ?_, ?_⟩
    · intro hk; subst hk; simp [Session.assign]
    · intro hk; subst hk; simp [Session.assign]
    · intro hk; subst hk; simp [Session.assign]
    · intro hk; subst hk; simp [Session.assign]
    · intro hk; subst hk; simp [Session.assign, Time.SetDuration]
    · intro hk
      simp only [List.mem_cons, List.mem_singleton, List.not_mem_nil, or_false, not_or] at hk
      obtain ⟨h1, h2, h3, h4, h5⟩ := hk
      simp only [Session.assign, if_neg h1, if_neg h2, if_neg h3, if_neg h4, if_neg h5]

/-- C11 at the line `t1 A status=sent` on the empty map. -/
theorem parseLine_new_session_witness :
    ∃ r : Session,
      (Logs.empty.parseLine "t1 A status=sent".toList).1.Sessions.lookup "A".toList = some r ∧
      r.SessionID = "A".toList ∧
      ("status".toList = "status".toList →
        r = { SessionID := "A".toList, Time := { «end» := "t1".toList },
              Status := "sent".toList }) := by
  obtain ⟨r, h1, h2, _, _, _, _, h7, _⟩ :=
    parseLine_new_session Logs.empty "t1 A status=sent".toList "t1".toList "A".toList
      "status=sent".toList "status".toList "sent".toList (by decide) (by decide) (by decide)
  exact ⟨r, h1, h2, h7⟩

/-! ## C13 -/

/-- C13: processing the five lines of the scenario from the empty map raises no error, and
`getFullSessions` then returns exactly one session, with `SessionID` `A`, `Client` `foo`,
`MessageID` `m1`, `Address.From` `a@x`, `Address.To` `b@x`, `Status` `sent`, `Time.Start`
`2021-01-01T10:00:00.000000` and the non-empty `Time.Duration` `00:00:05`; without the `to=`
line no error is raised either and the result is empty. -/
theorem scenario_yields_one_full_session :
    (Logs.empty.parseLines
      ["2021-01-01T10:00:00.000000 A client=foo".toList,
       "2021-01-01T10:00:00.000000 A message-id=m1".toList,
       "2021-01-01T10:00:00.000000 A from=a@x".toList,
       "2021-01-01T10:00:00.000000 A to=b@x".toList,
       "2021-01-01T10:00:05.000000 A status=sent".toList]).2 = none ∧
    (Logs.empty.parseLines
      ["2021-01-01T10:00:00.000000 A client=foo".toList,
       "2021-01-01T10:00:00.000000 A message-id=m1".toList,
       "2021-01-01T10:00:00.000000 A from=a@x".toList,
       "2021-01-01T10:00:00.000000 A to=b@x".toList,
       "2021-01-01T10:00:05.000000 A status=sent".toList]).1.getFullSessions =
      {{ Time := { Start := "2021-01-01T10:00:00.000000".toList,
                   «end» := "2021-01-01T10:00:05.000000".toList,
                   Duration := "00:00:05".toList },
         SessionID := "A".toList, Client := "foo".toList, MessageID := "m1".toList,
         Address := { From := "a@x".toList, To := "b@x".toList },
         Status := "sent".toList }} ∧
    "00:00:05".toList ≠ [] ∧
    (Logs.empty.parseLines
      ["2021-01-01T10:00:00.000000 A client=foo".toList,
       "2021-01-01T10:00:00.000000 A message-id=m1".toList,
       "2021-01-01T10:00:00.000000 A from=a@x".toList,
       "2021-01-01T10:00:05.000000 A status=sent".toList]).2 = none ∧
    (Logs.empty.parseLines
      ["2021-01-01T10:00:00.000000 A client=foo".toList,
       "2021-01-01T10:00:00.000000 A message-id=m1".toList,
       "2021-01-01T10:00:00.000000 A from=a@x".toList,
       "2021-01-01T10:00:05.000000 A status=sent".toList]).1.getFullSessions = 0 := by
  set_option maxRecDepth 100000 in
  refine ⟨by decide, by decide, by decide, by decide, by decide⟩

/-! ## C18 -/

/-- C18: a failing `parseLine` is not always atomic. If it returns the malformed-line error the
map is unchanged. If it returns the malformed-field error, the line has three tokens, the error
names the third, and the map is unchanged when the second token was a key already, and
otherwise is the map with one more record, stored under the second token and holding only
that token as `SessionID`; on either error every record that was in the map is unchanged. The
line `t A x` on the empty map fails with the malformed-field error and leaves a record for
`A`. -/
theorem parseLine_error_effect (l : Logs) (line : Str) :
    (∀ e, (l.parseLine line).2 = some (Error.malformedLine e) → (l.parseLine line).1 = l) ∧
    (∀ f, (l.parseLine line).2 = some (Error.malformedField f) →
      ∃ ts sid, Split (ReplaceAllString line) ' ' = [ts, sid, f] ∧
        (sid ∈ l.Sessions → (l.parseLine line).1 = l) ∧
        (sid ∉ l.Sessions →
          (l.parseLine line).1 = ⟨l.Sessions.insert sid { SessionID := sid }⟩ ∧
          (l.parseLine line).1.Sessions.lookup sid = some { SessionID := sid }) ∧
        (∀ k, k ≠ sid → (l.parseLine line).1.Sessions.lookup k = l.Sessions.lookup k)) ∧
    (∀ e, (l.parseLine line).2 = some e →
      ∀ k r, l.Sessions.lookup k = some r → (l.parseLine line).1.Sessions.lookup k = some r) ∧
    ((Logs.empty.parseLine "t A x".toList).2 = some (Error.malformedField "x".toList) ∧
      (Logs.empty.parseLine "t A x".toList).1.Sessions.lookup "A".toList =
        some { SessionID := "A".toList } ∧
      Logs.empty.Sessions.lookup "A".toList = none) := by
  refine ⟨?_, ?_, ?_, by decide, by decide, by decide⟩
  · intro e he
    rcases parseLine_cases l line with ⟨_, h⟩ | ⟨ts, sid, f, _, _, h⟩ | ⟨ts, sid, f, k, v, _, _, h⟩
    · rw [h]
    · rw [h] at he
      simp at he
    · rw [parseLine_snd, h] at he
      simp at he
  · intro f hf
    rcases parseLine_cases l line with ⟨_, h⟩ | ⟨ts, sid, f', hline, _, h⟩ |
      ⟨ts, sid, f', k, v, _, _, h⟩
    · rw [h] at hf
      simp at hf
    · rw [h] at hf ⊢
      simp only [Option.some.injEq, Error.malformedField.injEq] at hf
      subst hf
      refine ⟨ts, sid, hline, fun hmem => addIfNew_of_mem l sid hmem, fun hnew => ⟨?_, ?_⟩,
        fun k hk => ?_⟩
      · simp only [Logs.addIfNew, if_neg hnew]
      · simp only [lookup_addIfNew, if_pos, Finmap.lookup_eq_none.mpr hnew]
        rfl
      · simp only [lookup_addIfNew, if_neg hk]
    · rw [parseLine_snd, h] at hf
      simp at hf
  · intro e he k r hk
    rcases parseLine_cases l line with ⟨_, h⟩ | ⟨ts, sid, f', hline, _, h⟩ |
      ⟨ts, sid, f', k', v, _, _, h⟩
    · rw [h]
      exact hk
    · rw [h]
      simp only [lookup_addIfNew]
      split_ifs with hks
      · subst hks
        rw [hk]
        rfl
      · exact hk
    · rw [parseLine_snd, h] at he
      simp at he

/-! ## C14 -/

theorem parseLines_cons_of_error (l : Logs) (x : Str) (xs : List Str) (e : Error)
    (h : (l.parseLine x).2 = some e) : (l.parseLines (x :: xs)).2 = some e := by
  rw [Logs.parseLines]
  split
  · rename_i heq
    rw [heq] at h
    exact Option.noConfusion h
  · rename_i heq
    rw [heq] at h
    exact h

theorem parseLines_append_of_prefix_ok (xs ys : List Str) :
    ∀ l : Logs, (l.parseLines xs).2 = none →
      l.parseLines (xs ++ ys) = (l.parseLines xs).1.parseLines ys := by
  induction xs with
  | nil => intro l _; rfl
  | cons x xs ih =>
    intro l h
    have hx := parseLine_ok_of_parseLines_ok l x xs h
    rw [List.cons_append, parseLines_cons_of_ok l x _ hx]
    rw [parseLines_cons_of_ok l x _ hx] at h ⊢
    exact ih _ h

theorem decode_of_parseLines_ok (lines : List Str) :
    ∀ l : Logs, (l.parseLines lines).2 = none → ∀ x ∈ lines, ∃ d, decode x = Except.ok d := by
  induction lines with
  | nil => intro l _ x hx; simp at hx
  | cons y ys ih =>
    intro l h x hx
    have hy := parseLine_ok_of_parseLines_ok l y ys h
    rw [parseLines_cons_of_ok l y ys hy] at h
    rcases List.mem_cons.mp hx with rfl | hmem
    · obtain ⟨ts, s, k, v, hd⟩ := decode_of_parseLine_ok l x hy
      exact ⟨_, hd⟩
    · exact ih _ h x hmem

theorem main_eq_ok_iff (lines : List Str) (scanErr : Option ScanError)
    (out : Multiset Session) :
    main lines scanErr = Except.ok out ↔
      (Logs.empty.parseLines lines).2 = none ∧ scanErr = none ∧
        out = (Logs.empty.parseLines lines).1.getFullSessions := by
  unfold main
  split
  · rename_i l e heq
    rw [heq]
    simp
  · rename_i l heq
    rw [heq]
    cases scanErr with
    | none =>
      simp only [Except.ok.injEq, true_and]
      exact eq_comm
    | some e => simp

theorem main_of_line_error (lines : List Str) (scanErr : Option ScanError) (e : Error)
    (h : (Logs.empty.parseLines lines).2 = some e) :
    main lines scanErr = Except.error (Fatal.line e) := by
  unfold main
  split
  · rename_i heq
    rw [heq] at h
    simp only [Option.some.injEq] at h
    rw [h]
  · rename_i heq
    rw [heq] at h
    exact Option.noConfusion h

theorem main_of_scan_error (lines : List Str) (e : ScanError)
    (h : (Logs.empty.parseLines lines).2 = none) :
    main lines (some e) = Except.error (Fatal.scan e) := by
  unfold main
  split
  · rename_i heq
    rw [heq] at h
    exact Option.noConfusion h
  · rfl

/-- C14, as the code has it: fail-fast. The run is the short-circuiting fold of `parseLine` over
the lines the scanner delivers, followed by the check of the scanner's error and by
`getFullSessions`. It yields an output if and only if every line decodes and the scanner
reports no error, and the output is then the full sessions of the final map. If some line does
not decode and all lines before it do, the run is the error of that line (the malformed-line or
the malformed-field error) and yields no output, whatever the lines before it were and whatever
the scanner reports: the five lines of the scenario, which form a full session, followed by the
line `oops`, give the malformed-line error for `oops`. If every line decodes and the scanner
reports an error, the run is that error and yields no output either. -/
theorem main_fail_fast (lines : List Str) (scanErr : Option ScanError) :
    ((∃ out, main lines scanErr = Except.ok out) ↔
      (∀ x ∈ lines, ∃ d, decode x = Except.ok d) ∧ scanErr = none) ∧
    (∀ out, main lines scanErr = Except.ok out →
      out = (Logs.empty.parseLines lines).1.getFullSessions) ∧
    (∀ (pre post : List Str) (x : Str) (e : Error), lines = pre ++ x :: post →
      (∀ y ∈ pre, ∃ d, decode y = Except.ok d) → decode x = Except.error e →
        main lines scanErr = Except.error (Fatal.line e) ∧
        (e = Error.malformedLine (ReplaceAllString x) ∨ ∃ f, e = Error.malformedField f)) ∧
    (∀ e : ScanError, (∀ x ∈ lines, ∃ d, decode x = Except.ok d) → scanErr = some e →
      main lines scanErr = Except.error (Fatal.scan e)) ∧
    main
      ["2021-01-01T10:00:00.000000 A client=foo".toList,
       "2021-01-01T10:00:00.000000 A message-id=m1".toList,
       "2021-01-01T10:00:00.000000 A from=a@x".toList,
       "2021-01-01T10:00:00.000000 A to=b@x".toList,
       "2021-01-01T10:00:05.000000 A status=sent".toList,
       "oops".toList] none =
      Except.error (Fatal.line (Error.malformedLine "oops".toList)) := by
  refine ⟨⟨?_, ?_⟩, ?_, ?_, ?_, ?_⟩
  · rintro ⟨out, hout⟩
    obtain ⟨hok, hscan, _⟩ := (main_eq_ok_iff lines scanErr out).mp hout
    exact ⟨decode_of_parseLines_ok lines _ hok, hscan⟩
  · rintro ⟨hall, hscan⟩
    exact ⟨_, (main_eq_ok_iff lines scanErr _).mpr
      ⟨parseLines_ok_of_decode lines hall _, hscan, rfl⟩⟩
  · intro out hout
    exact ((main_eq_ok_iff lines scanErr out).mp hout).2.2
  · intro pre post x e hlines hpre hx
    subst hlines
    have hpreok := parseLines_ok_of_decode pre hpre Logs.empty
    have herr : ((Logs.empty.parseLines pre).1.parseLine x).2 = some e := by
      rw [parseLine_snd, hx]
    have hrun : (Logs.empty.parseLines (pre ++ x :: post)).2 = some e := by
      rw [parseLines_append_of_prefix_ok pre (x :: post) Logs.empty hpreok]
      exact parseLines_cons_of_error _ x post e herr
    refine ⟨main_of_line_error _ scanErr e hrun, ?_⟩
    rcases parseLine_cases Logs.empty x with ⟨_, h⟩ | ⟨ts, sid, f, _, _, h⟩ |
      ⟨ts, sid, f, k, v, _, _, h⟩
    · have h2 := parseLine_snd Logs.empty x
      rw [h, hx] at h2
      simp only [Option.some.injEq] at h2
      exact Or.inl h2.symm
    · have h2 := parseLine_snd Logs.empty x
      rw [h, hx] at h2
      simp only [Option.some.injEq] at h2
      exact Or.inr ⟨f, h2.symm⟩
    · rw [h] at hx
      exact Except.noConfusion hx
  · intro e hall hscan
    rw [hscan]
    exact main_of_scan_error lines e (parseLines_ok_of_decode lines hall _)
  · rfl

/-- C14 fails as stated: the scanner delivers the five lines of the scenario, which all decode
and form a full session, and then reports `bufio.ErrTooLong` (the file goes on with a line of
64 KiB or more); every line decodes, and yet the run yields no output but the scanner's
error. -/
theorem scanner_error_yields_no_output :
    (Logs.empty.parseLines
      ["2021-01-01T10:00:00.000000 A client=foo".toList,
       "2021-01-01T10:00:00.000000 A message-id=m1".toList,
       "2021-01-01T10:00:00.000000 A from=a@x".toList,
       "2021-01-01T10:00:00.000000 A to=b@x".toList,
       "2021-01-01T10:00:05.000000 A status=sent".toList]).2 = none ∧
    Multiset.card (Logs.empty.parseLines
      ["2021-01-01T10:00:00.000000 A client=foo".toList,
       "2021-01-01T10:00:00.000000 A message-id=m1".toList,
       "2021-01-01T10:00:00.000000 A from=a@x".toList,
       "2021-01-01T10:00:00.000000 A to=b@x".toList,
       "2021-01-01T10:00:05.000000 A status=sent".toList]).1.getFullSessions = 1 ∧
    main
      ["2021-01-01T10:00:00.000000 A client=foo".toList,
       "2021-01-01T10:00:00.000000 A message-id=m1".toList,
       "2021-01-01T10:00:00.000000 A from=a@x".toList,
       "2021-01-01T10:00:00.000000 A to=b@x".toList,
       "2021-01-01T10:00:05.000000 A status=sent".toList]
      (some ScanError.tooLong) = Except.error (Fatal.scan ScanError.tooLong) := by
  set_option maxRecDepth 100000 in
  refine ⟨by decide, by decide, rfl⟩

/-! ## Reachable states -/

theorem sessionOf_of_three (line ts sid f : Str)
    (h : Split (ReplaceAllString line) ' ' = [ts, sid, f]) : sessionOf line = some sid := by
  unfold sessionOf
  rw [h]

theorem sessionOf_of_not_three (line : Str)
    (h : (Split (ReplaceAllString line) ' ').length ≠ 3) : sessionOf line = none := by
  unfold sessionOf
  split
  · rename_i heq
    rw [heq] at h
    exact absurd rfl h
  · rfl

theorem parseEach_cons (l : Logs) (x : Str) (xs : List Str) :
    l.parseEach (x :: xs) = (l.parseLine x).1.parseEach xs := rfl

theorem parseEach_append (l : Logs) (xs ys : List Str) :
    l.parseEach (xs ++ ys) = (l.parseEach xs).parseEach ys := by
  unfold Logs.parseEach
  rw [List.foldl_append]

/-- The record under `k` after `parseLine` on any line: the same as before, or the line is a
line of the session `k` and the record is the former one, or a fresh one, after the branch of
some key, or the fresh one itself. -/
theorem parseLine_lookup_any (l : Logs) (line k : Str) :
    (l.parseLine line).1.Sessions.lookup k = l.Sessions.lookup k ∨
    (sessionOf line = some k ∧
      ((l.parseLine line).1.Sessions.lookup k =
          some ((l.Sessions.lookup k).getD { SessionID := k }) ∨
        ∃ ts key v, (l.parseLine line).1.Sessions.lookup k =
          some (((l.Sessions.lookup k).getD { SessionID := k }).assign ts key v))) := by
  rcases parseLine_cases l line with ⟨_, h⟩ | ⟨ts, sid, f, hline, _, h⟩ |
    ⟨ts, sid, f, key, v, hline, _, h⟩
  · rw [h]
    exact Or.inl rfl
  · rw [h, lookup_addIfNew]
    by_cases hk : k = sid
    · subst hk
      rw [if_pos rfl]
      exact Or.inr ⟨sessionOf_of_three line ts k f hline, Or.inl rfl⟩
    · rw [if_neg hk]
      exact Or.inl rfl
  · rw [parseLine_lookup l line ts sid key v k h]
    by_cases hk : k = sid
    · subst hk
      rw [if_pos rfl]
      exact Or.inr ⟨sessionOf_of_three line ts k f hline, Or.inr ⟨ts, key, v, rfl⟩⟩
    · rw [if_neg hk]
      exact Or.inl rfl

/-- A line of three tokens leaves a record under its second token. -/
theorem mem_parseLine_of_sessionOf (l : Logs) (line sid : Str)
    (h : sessionOf line = some sid) : ∃ r, (l.parseLine line).1.Sessions.lookup sid = some r := by
  rcases parseLine_cases l line with ⟨h3, _⟩ | ⟨ts, sid', f, hline, _, hp⟩ |
    ⟨ts, sid', f, key, v, hline, _, hd⟩
  · rw [sessionOf_of_not_three line h3] at h
    exact Option.noConfusion h
  · rw [sessionOf_of_three line ts sid' f hline] at h
    simp only [Option.some.injEq] at h
    subst h
    rw [hp, lookup_addIfNew, if_pos rfl]
    exact ⟨_, rfl⟩
  · rw [sessionOf_of_three line ts sid' f hline] at h
    simp only [Option.some.injEq] at h
    subst h
    rw [parseLine_lookup l line ts sid' key v sid' hd, if_pos rfl]
    exact ⟨_, rfl⟩

/-- The keys after `parseLine`: the keys before and the second token of a line of three
tokens. -/
theorem mem_parseLine_iff (l : Logs) (line k : Str) :
    k ∈ (l.parseLine line).1.Sessions ↔ k ∈ l.Sessions ∨ sessionOf line = some k := by
  rw [Finmap.mem_iff, Finmap.mem_iff]
  constructor
  · rintro ⟨r, hr⟩
    rcases parseLine_lookup_any l line k with h | ⟨hs, _⟩
    · rw [h] at hr
      exact Or.inl ⟨r, hr⟩
    · exact Or.inr hs
  · rintro (⟨r, hr⟩ | hs)
    · rcases parseLine_lookup_any l line k with h | ⟨_, h | ⟨ts, key, v, h⟩⟩
      · rw [h]
        exact ⟨r, hr⟩
      · rw [h]
        exact ⟨_, rfl⟩
      · rw [h]
        exact ⟨_, rfl⟩
    · exact mem_parseLine_of_sessionOf l line k hs

/-- The invariant of the map: the record stored under `k` has the session identifier `k`. -/
theorem parseLine_keeps_SessionID (l : Logs) (line : Str)
    (hinv : ∀ k r, l.Sessions.lookup k = some r → r.SessionID = k) :
    ∀ k r, (l.parseLine line).1.Sessions.lookup k = some r → r.SessionID = k := by
  intro k r hr
  have hbase : ((l.Sessions.lookup k).getD { SessionID := k }).SessionID = k := by
    cases hl : l.Sessions.lookup k with
    | none => rfl
    | some r0 => exact hinv k r0 hl
  rcases parseLine_lookup_any l line k with h | ⟨_, h | ⟨ts, key, v, h⟩⟩
  · rw [h] at hr
    exact hinv k r hr
  · rw [h] at hr
    simp only [Option.some.injEq] at hr
    rw [← hr]
    exact hbase
  · rw [h] at hr
    simp only [Option.some.injEq] at hr
    rw [← hr, assign_SessionID]
    exact hbase

theorem parseEach_keeps_SessionID (lines : List Str) :
    ∀ l : Logs, (∀ k r, l.Sessions.lookup k = some r → r.SessionID = k) →
      ∀ k r, (l.parseEach lines).Sessions.lookup k = some r → r.SessionID = k := by
  induction lines with
  | nil => intro l h; exact h
  | cons x xs ih =>
    intro l h
    rw [parseEach_cons]
    exact ih _ (parseLine_keeps_SessionID l x h)

/-! ## C15 -/

/-- C15: in every state reachable from the empty map by a sequence of `parseLine` calls,
successful or failing, each record stored under a key `k` has `SessionID = k`; a further call of
`parseLine` on any line leaves the `SessionID` of every record as it is; and no two records,
stored under different keys, share a `SessionID`. -/
theorem SessionID_is_key (lines : List Str) :
    (∀ k r, (Logs.empty.parseEach lines).Sessions.lookup k = some r → r.SessionID = k) ∧
    (∀ (line k : Str) (r r' : Session),
      (Logs.empty.parseEach lines).Sessions.lookup k = some r →
      ((Logs.empty.parseEach lines).parseLine line).1.Sessions.lookup k = some r' →
        r'.SessionID = r.SessionID) ∧
    (∀ (k k' : Str) (r r' : Session),
      (Logs.empty.parseEach lines).Sessions.lookup k = some r →
      (Logs.empty.parseEach lines).Sessions.lookup k' = some r' →
        r.SessionID = r'.SessionID → k = k') := by
  have hinv := parseEach_keeps_SessionID lines Logs.empty (fun k r h => by
    rw [lookup_empty] at h
    exact Option.noConfusion h)
  refine ⟨hinv, fun line k r r' hr hr' => ?_, fun k k' r r' hr hr' heq => ?_⟩
  · rw [parseLine_keeps_SessionID _ line hinv k r' hr', hinv k r hr]
  · rw [← hinv k r hr, ← hinv k' r' hr', heq]

/-! ## C16 -/

theorem keys_parseLine (l : Logs) (line : Str) :
    (l.parseLine line).1.Sessions.keys =
      match sessionOf line with
      | some sid => insert sid l.Sessions.keys
      | none => l.Sessions.keys := by
  ext k
  rw [Finmap.mem_keys, mem_parseLine_iff]
  cases hs : sessionOf line with
  | none => simp [Finmap.mem_keys]
  | some sid =>
    simp only [Option.some.injEq, Finset.mem_insert, Finmap.mem_keys]
    constructor
    · rintro (h | h)
      · exact Or.inr h
      · exact Or.inl h.symm
    · rintro (h | h)
      · exact Or.inr h.symm
      · exact Or.inl h

theorem keys_parseEach (lines : List Str) :
    ∀ l : Logs, (l.parseEach lines).Sessions.keys =
      l.Sessions.keys ∪ (lines.filterMap sessionOf).toFinset := by
  induction lines with
  | nil => intro l; simp [Logs.parseEach]
  | cons x xs ih =>
    intro l
    rw [parseEach_cons, ih, keys_parseLine, List.filterMap_cons]
    cases hs : sessionOf x with
    | none => rfl
    | some sid =>
      simp only [List.toFinset_cons]
      ext k
      simp only [Finset.mem_union, Finset.mem_insert]
      tauto

theorem keys_parseEach_empty (lines : List Str) :
    (Logs.empty.parseEach lines).Sessions.keys = (lines.filterMap sessionOf).toFinset := by
  rw [keys_parseEach]
  have : Logs.empty.Sessions.keys = ∅ := Finmap.keys_empty
  rw [this, Finset.empty_union]

/-- The loop of `main` and the calls one after the other agree as long as no call fails. -/
theorem parseLines_eq_parseEach (lines : List Str) :
    ∀ l : Logs, (l.parseLines lines).2 = none → (l.parseLines lines).1 = l.parseEach lines := by
  induction lines with
  | nil => intro l _; rfl
  | cons x xs ih =>
    intro l h
    have hx := parseLine_ok_of_parseLines_ok l x xs h
    rw [parseLines_cons_of_ok l x xs hx] at h ⊢
    rw [parseEach_cons]
    exact ih _ h

theorem card_records (l : Logs) : Multiset.card l.records = l.Sessions.keys.card := by
  unfold Logs.records Finmap.keys
  simp only [Multiset.card_map, Finset.card_mk]
  unfold Multiset.keys
  rw [Multiset.card_map]

/-- C16: `parseLine` never removes a record: the keys of the map after a call include the keys
before it, every record that was stored is still stored under its key, and there is at most
one key more. After `parseLine` has been called on each of a sequence of lines from the empty
map, the keys are exactly the second tokens of the lines that split into exactly three tokens,
so the number of records is the number of distinct such tokens, at most the number of lines,
and the same for two sequences with the same set of session identifiers. The loop of `main`
reaches the same state when no line fails. -/
theorem keys_only_grow (lines : List Str) :
    (∀ (l : Logs) (line : Str),
      l.Sessions.keys ⊆ (l.parseLine line).1.Sessions.keys ∧
      (l.parseLine line).1.Sessions.keys.card ≤ l.Sessions.keys.card + 1 ∧
      (∀ k r, l.Sessions.lookup k = some r →
        ∃ r', (l.parseLine line).1.Sessions.lookup k = some r')) ∧
    (Logs.empty.parseEach lines).Sessions.keys = (lines.filterMap sessionOf).toFinset ∧
    Multiset.card (Logs.empty.parseEach lines).records =
      (lines.filterMap sessionOf).toFinset.card ∧
    Multiset.card (Logs.empty.parseEach lines).records ≤ lines.length ∧
    (∀ lines' : List Str,
      (lines'.filterMap sessionOf).toFinset = (lines.filterMap sessionOf).toFinset →
        Multiset.card (Logs.empty.parseEach lines').records =
          Multiset.card (Logs.empty.parseEach lines).records) ∧
    ((Logs.empty.parseLines lines).2 = none →
      (Logs.empty.parseLines lines).1 = Logs.empty.parseEach lines) := by
  have hkeys : ∀ ls : List Str,
      (Logs.empty.parseEach ls).Sessions.keys = (ls.filterMap sessionOf).toFinset :=
    keys_parseEach_empty
  refine ⟨fun l line => ⟨?_, ?_, ?_⟩, hkeys lines, ?_, ?_, ?_, parseLines_eq_parseEach lines _⟩
  · rw [keys_parseLine]
    cases sessionOf line with
    | none => exact Finset.Subset.refl _
    | some sid => exact Finset.subset_insert _ _
  · rw [keys_parseLine]
    cases sessionOf line with
    | none => exact Nat.le_succ _
    | some sid => exact Finset.card_insert_le _ _
  · intro k r hr
    have hmem : k ∈ (l.parseLine line).1.Sessions :=
      (mem_parseLine_iff l line k).mpr (Or.inl (Finmap.mem_of_lookup_eq_some hr))
    exact Finmap.mem_iff.mp hmem
  · rw [card_records, hkeys]
  · rw [card_records, hkeys]
    calc (lines.filterMap sessionOf).toFinset.card
        ≤ (lines.filterMap sessionOf).length := List.toFinset_card_le _
      _ ≤ lines.length := List.length_filterMap_le _ _
  · intro lines' h
    rw [card_records, card_records, hkeys, hkeys, h]

/-! ## Normalisation -/

theorem isSpace_space : isSpace ' ' = true := by decide

theorem collapse_cons_space (f : Bool) (c : Char) (s : Str) (hc : isSpace c = true) :
    collapse f (c :: s) = (if f then [] else [' ']) ++ collapse true s := by
  rw [collapse, if_pos hc]
  cases f <;> rfl

theorem collapse_cons_not_space (f : Bool) (c : Char) (s : Str) (hc : ¬ isSpace c = true) :
    collapse f (c :: s) = c :: collapse false s := by
  rw [collapse, if_neg hc]

/-- Inside a run, further whitespace is skipped. -/
theorem collapse_true_spaces (ws b : Str) (hws : ∀ c ∈ ws, isSpace c = true) :
    collapse true (ws ++ b) = collapse true b := by
  induction ws with
  | nil => rfl
  | cons c cs ih =>
    rw [List.cons_append, collapse_cons_space true c _ (hws c (List.mem_cons_self _ _)),
      ih (fun d hd => hws d (List.mem_cons_of_mem _ hd))]
    rfl

/-- A non-empty run of whitespace is collapsed like one space. -/
theorem collapse_run (f : Bool) (ws b : Str) (hne : ws ≠ [])
    (hws : ∀ c ∈ ws, isSpace c = true) :
    collapse f (ws ++ b) = collapse f (' ' :: b) := by
  cases ws with
  | nil => exact absurd rfl hne
  | cons c cs =>
    rw [List.cons_append, collapse_cons_space f c _ (hws c (List.mem_cons_self _ _)),
      collapse_true_spaces cs b (fun d hd => hws d (List.mem_cons_of_mem _ hd)),
      collapse_cons_space f ' ' b isSpace_space]

theorem collapse_append_congr (a x y : Str) (h : ∀ f, collapse f x = collapse f y) :
    ∀ f, collapse f (a ++ x) = collapse f (a ++ y) := by
  induction a with
  | nil => exact h
  | cons c cs ih =>
    intro f
    by_cases hc : isSpace c = true
    · rw [List.cons_append, List.cons_append, collapse_cons_space f c _ hc,
        collapse_cons_space f c _ hc, ih true]
    · rw [List.cons_append, List.cons_append, collapse_cons_not_space f c _ hc,
        collapse_cons_not_space f c _ hc, ih false]

/-- Collapsing is idempotent. -/
theorem collapse_collapse (s : Str) : ∀ f, collapse f (collapse f s) = collapse f s := by
  induction s with
  | nil => intro f; rfl
  | cons c cs ih =>
    intro f
    by_cases hc : isSpace c = true
    · rw [collapse_cons_space f c cs hc]
      cases f with
      | true => exact ih true
      | false =>
        show collapse false (' ' :: collapse true cs) = ' ' :: collapse true cs
        rw [collapse_cons_space false ' ' _ isSpace_space, ih true]
        rfl
    · rw [collapse_cons_not_space f c cs hc, collapse_cons_not_space f c _ hc, ih false]

/-- The result of `parseLine` depends on the line through its normal form only. -/
theorem parseLine_congr (l : Logs) (x y : Str) (h : ReplaceAllString x = ReplaceAllString y) :
    l.parseLine x = l.parseLine y := by
  unfold Logs.parseLine
  simp only
  rw [h]

/-! ## C12 -/

/-- C12: whitespace-collapse. For every session map and every line, `parseLine` gives the same
result (the same error or none, and the same map) on the line and on its normal form, and the
normal form of a normal form is itself; and for all texts `a`, `b` and every non-empty run `ws`
of whitespace characters, the line `a ws b` has the same normal form as the line `a b` with one
space between, and `parseLine` gives the same result on both. -/
theorem parseLine_whitespace_collapse :
    (∀ (l : Logs) (line : Str), l.parseLine (ReplaceAllString line) = l.parseLine line) ∧
    (∀ line : Str, ReplaceAllString (ReplaceAllString line) = ReplaceAllString line) ∧
    (∀ (l : Logs) (a b ws : Str), ws ≠ [] → (∀ c ∈ ws, isSpace c = true) →
      ReplaceAllString (a ++ ws ++ b) = ReplaceAllString (a ++ ' ' :: b) ∧
      l.parseLine (a ++ ws ++ b) = l.parseLine (a ++ ' ' :: b)) := by
  have hidem : ∀ line : Str, ReplaceAllString (ReplaceAllString line) = ReplaceAllString line :=
    fun line => collapse_collapse line false
  have hrun : ∀ a b ws : Str, ws ≠ [] → (∀ c ∈ ws, isSpace c = true) →
      ReplaceAllString (a ++ ws ++ b) = ReplaceAllString (a ++ ' ' :: b) := by
    intro a b ws hne hws
    unfold ReplaceAllString
    rw [List.append_assoc]
    exact collapse_append_congr a (ws ++ b) (' ' :: b) (fun f => collapse_run f ws b hne hws) false
  exact ⟨fun l line => parseLine_congr l _ _ (hidem line), hidem,
    fun l a b ws hne hws => ⟨hrun a b ws hne hws, parseLine_congr l _ _ (hrun a b ws hne hws)⟩⟩

/-! ## C19 -/

theorem noDoubleSpace_cons_cons (a b : Char) (rest : Str) :
    noDoubleSpace (a :: b :: rest) =
      (!(decide (a = ' ' ∧ b = ' ')) && noDoubleSpace (b :: rest)) := by
  rw [noDoubleSpace]

/-- The normal form has no two adjacent spaces, and after a run it does not start with one. -/
theorem noDoubleSpace_collapse (s : Str) :
    ∀ f, noDoubleSpace (collapse f s) = true ∧
      (f = true → ∀ rest, collapse f s ≠ ' ' :: rest) := by
  induction s with
  | nil =>
    intro f
    exact ⟨rfl, fun _ rest h => List.noConfusion h⟩
  | cons c cs ih =>
    intro f
    by_cases hc : isSpace c = true
    · rw [collapse_cons_space f c cs hc]
      cases f with
      | true => exact ih true
      | false =>
        refine ⟨?_, fun h => Bool.noConfusion h⟩
        show noDoubleSpace (' ' :: collapse true cs) = true
        cases hcs : collapse true cs with
        | nil => rfl
        | cons d ds =>
          have hd : ¬ d = ' ' := by
            intro hd
            subst hd
            exact (ih true).2 rfl ds hcs
          have hrest := (ih true).1
          rw [hcs] at hrest
          rw [noDoubleSpace_cons_cons, hrest]
          simp [hd]
    · have hne : ¬ c = ' ' := by
        intro h
        subst h
        exact hc isSpace_space
      rw [collapse_cons_not_space f c cs hc]
      refine ⟨?_, fun _ rest h => hne (List.cons.inj h).1⟩
      cases hcs : collapse false cs with
      | nil => rfl
      | cons d ds =>
        have hrest := (ih false).1
        rw [hcs] at hrest
        rw [noDoubleSpace_cons_cons, hrest]
        simp [hne]

theorem noDoubleSpace_of_append (a x : Str) (h : noDoubleSpace (a ++ x) = true) :
    noDoubleSpace x = true := by
  induction a with
  | nil => exact h
  | cons c cs ih =>
    apply ih
    cases hcx : cs ++ x with
    | nil => rfl
    | cons d ds =>
      rw [List.cons_append, hcx, noDoubleSpace_cons_cons] at h
      simp only [Bool.and_eq_true] at h
      exact h.2

/-- A text that splits into three pieces is the pieces with the separator between them. -/
theorem eq_of_Split_three (s a b d : Str) (c : Char) (h : Split s c = [a, b, d]) :
    s = a ++ c :: (b ++ c :: d) := by
  have hlen := length_Split s c
  rw [h] at hlen
  have hmem : c ∈ s := List.count_pos_iff.mp (by simp at hlen; omega)
  rw [Split_eq_takeWhile_cons s c hmem] at h
  simp only [List.cons.injEq] at h
  obtain ⟨ha, hrest⟩ := h
  obtain ⟨hcount, hb, hd⟩ := (Split_eq_pair_iff _ b d c).mp hrest
  have hmem2 : c ∈ (s.dropWhile (fun e => e ≠ c)).drop 1 := List.count_pos_iff.mp (by omega)
  have h1 := eq_takeWhile_sep_drop s c hmem
  have h2 := eq_takeWhile_sep_drop _ c hmem2
  rw [← hb, ← hd] at h2
  rw [ha, h2] at h1
  exact h1

/-- The middle one of three tokens of a normal form is not empty. -/
theorem middle_token_ne_nil (line ts sid f : Str)
    (h : Split (ReplaceAllString line) ' ' = [ts, sid, f]) : sid ≠ [] := by
  intro hsid
  subst hsid
  have heq := eq_of_Split_three _ _ _ _ _ h
  have hnd := (noDoubleSpace_collapse line false).1
  unfold ReplaceAllString at heq
  rw [heq] at hnd
  have := noDoubleSpace_of_append ts _ hnd
  simp [noDoubleSpace] at this

theorem sessionOf_ne_nil (line sid : Str) (h : sessionOf line = some sid) : sid ≠ [] := by
  unfold sessionOf at h
  split at h
  · rename_i ts sid' f heq
    simp only [Option.some.injEq] at h
    subst h
    exact middle_token_ne_nil line ts sid' f heq
  · exact Option.noConfusion h

/-- C19: whenever the normal form of a line splits into exactly three tokens on the space, the
middle token is not empty, since the normal form has no two adjacent spaces. So in every state
reachable from the empty map by `parseLine` calls the empty text is not a key and no record has
an empty `SessionID`, and for the records of such a state `isSessionFull` is the test of the
seven other fields. The first token can be empty: the normal form of ` A client=x`, with a
leading space, has the tokens ``, `A` and `client=x`. -/
theorem SessionID_never_empty (lines : List Str) :
    (∀ line ts sid f : Str, Split (ReplaceAllString line) ' ' = [ts, sid, f] → sid ≠ []) ∧
    (∀ line : Str, noDoubleSpace (ReplaceAllString line) = true) ∧
    [] ∉ (Logs.empty.parseEach lines).Sessions ∧
    (∀ k r, (Logs.empty.parseEach lines).Sessions.lookup k = some r → r.SessionID ≠ []) ∧
    (∀ r ∈ (Logs.empty.parseEach lines).records,
      (r.isSessionFull = true ↔
        (r.Time.Start ≠ [] ∧ r.Time.Duration ≠ [] ∧ r.Client ≠ [] ∧ r.MessageID ≠ [] ∧
          r.Status ≠ [] ∧ r.Address.From ≠ [] ∧ r.Address.To ≠ []))) ∧
    Split (ReplaceAllString " A client=x".toList) ' ' =
      [[], "A".toList, "client=x".toList] := by
  have hkey : ([] : Str) ∉ (Logs.empty.parseEach lines).Sessions := by
    intro hmem
    have hk := Finmap.mem_keys.mpr hmem
    rw [(keys_parseEach_empty lines)] at hk
    rw [List.mem_toFinset, List.mem_filterMap] at hk
    obtain ⟨x, _, hx⟩ := hk
    exact sessionOf_ne_nil x [] hx rfl
  have hinv := parseEach_keeps_SessionID lines Logs.empty (fun k r h => by
    rw [lookup_empty] at h
    exact Option.noConfusion h)
  have hid : ∀ k r, (Logs.empty.parseEach lines).Sessions.lookup k = some r →
      r.SessionID ≠ [] := by
    intro k r hr hempty
    rw [hinv k r hr] at hempty
    subst hempty
    exact hkey (Finmap.mem_of_lookup_eq_some hr)
  refine ⟨middle_token_ne_nil, fun line => (noDoubleSpace_collapse line false).1, hkey, hid,
    fun r hr => ?_, by decide⟩
  obtain ⟨k, hk⟩ := (mem_records_iff _ r).mp hr
  rw [isSessionFull_iff]
  have := hid k r hk
  tauto

/-! ## C20 -/

theorem sessionOf_of_decode (x ts s k v : Str) (h : decode x = Except.ok (ts, s, k, v)) :
    sessionOf x = some s := by
  obtain ⟨f, hline, _⟩ := (decode_ok_iff x ts s k v).mp h
  exact sessionOf_of_three x ts s f hline

/-- The record of a session after lines that decode depends on the record before and on the
lines of that session only. -/
theorem lookup_parseLines_eq_replay (k : Str) (lines : List Str)
    (hdec : ∀ x ∈ lines, ∃ d, decode x = Except.ok d) :
    ∀ l : Logs, (l.parseLines lines).1.Sessions.lookup k =
      replay k (l.Sessions.lookup k) (lines.filter fun x => sessionOf x = some k) := by
  induction lines with
  | nil => intro l; rfl
  | cons x xs ih =>
    intro l
    obtain ⟨⟨ts, s, key, v⟩, hd⟩ := hdec x (List.mem_cons_self _ _)
    rw [parseLines_cons_of_ok l x xs (parseLine_ok_of_decode l x ts s key v hd),
      ih (fun y hy => hdec y (List.mem_cons_of_mem _ hy)),
      parseLine_lookup l x ts s key v k hd]
    have hs := sessionOf_of_decode x ts s key v hd
    by_cases hk : k = s
    · subst hk
      rw [if_pos rfl, List.filter_cons_of_pos (by simpa using hs), replay, hd]
    · rw [if_neg hk, List.filter_cons_of_neg]
      rw [hs]
      simpa using fun e => hk e.symm

/-- Two sequences of decoding lines with the same lines of every session, in the same order,
lead to the same map. -/
theorem parseLines_eq_of_filter_eq (l : Logs) (lines lines' : List Str)
    (hdec : ∀ x ∈ lines, ∃ d, decode x = Except.ok d)
    (hdec' : ∀ x ∈ lines', ∃ d, decode x = Except.ok d)
    (hfilter : ∀ sid : Str, (lines.filter fun x => sessionOf x = some sid) =
      lines'.filter fun x => sessionOf x = some sid) :
    (l.parseLines lines).1 = (l.parseLines lines').1 := by
  apply Logs.ext_lookup
  intro k
  rw [lookup_parseLines_eq_replay k lines hdec, lookup_parseLines_eq_replay k lines' hdec',
    hfilter k]

/-- C20: interleaving independence. For every session map and any two lines that decode and
carry different session identifiers, ingesting them in either order yields the same map. Hence
for every list of lines that all decode and every reordering of it in which the lines of each
session keep their relative order, the reordered list raises no error either and yields the
same final map and the same full sessions. -/
theorem interleaving_independence :
    (∀ (l : Logs) (x y ts s k v ts' s' k' v' : Str),
      decode x = Except.ok (ts, s, k, v) → decode y = Except.ok (ts', s', k', v') → s ≠ s' →
        ((l.parseLine x).1.parseLine y).1 = ((l.parseLine y).1.parseLine x).1) ∧
    (∀ (l : Logs) (lines lines' : List Str),
      (∀ x ∈ lines, ∃ d, decode x = Except.ok d) → lines.Perm lines' →
      (∀ sid ∈ lines.filterMap sessionOf,
        (lines.filter fun x => sessionOf x = some sid) =
          lines'.filter fun x => sessionOf x = some sid) →
        (l.parseLines lines).2 = none ∧ (l.parseLines lines').2 = none ∧
        (l.parseLines lines).1 = (l.parseLines lines').1 ∧
        (l.parseLines lines).1.getFullSessions = (l.parseLines lines').1.getFullSessions) := by
  refine ⟨?_, ?_⟩
  · intro l x y ts s k v ts' s' k' v' hx hy hne
    apply Logs.ext_lookup
    intro key
    have hxl : ∀ (m : Logs) (a : Str), (m.parseLine x).1.Sessions.lookup a =
        if a = s then some (((m.Sessions.lookup s).getD { SessionID := s }).assign ts k v)
        else m.Sessions.lookup a := fun m a => parseLine_lookup m x ts s k v a hx
    have hyl : ∀ (m : Logs) (a : Str), (m.parseLine y).1.Sessions.lookup a =
        if a = s' then some (((m.Sessions.lookup s').getD { SessionID := s' }).assign ts' k' v')
        else m.Sessions.lookup a := fun m a => parseLine_lookup m y ts' s' k' v' a hy
    have hne' : ¬ s' = s := fun e => hne e.symm
    simp only [hxl, hyl, if_neg hne', if_neg hne]
    by_cases h1 : key = s
    · have h2 : ¬ key = s' := fun e => hne (h1.symm.trans e)
      simp only [if_pos h1, if_neg h2]
    · simp only [if_neg h1]
  · intro l lines lines' hdec hperm hfilter
    have hdec' : ∀ x ∈ lines', ∃ d, decode x = Except.ok d :=
      fun x hx => hdec x (hperm.mem_iff.mpr hx)
    have hall : ∀ sid : Str, (lines.filter fun x => sessionOf x = some sid) =
        lines'.filter fun x => sessionOf x = some sid := by
      intro sid
      by_cases hmem : sid ∈ lines.filterMap sessionOf
      · exact hfilter sid hmem
      · have hnone : ∀ x ∈ lines, ¬ sessionOf x = some sid :=
          fun x hx e => hmem (List.mem_filterMap.mpr ⟨x, hx, e⟩)
        rw [List.filter_eq_nil_iff.mpr (fun x hx => by simpa using hnone x hx),
          List.filter_eq_nil_iff.mpr (fun x hx => by
            simpa using hnone x (hperm.mem_iff.mpr hx))]
    have heq := parseLines_eq_of_filter_eq l lines lines' hdec hdec' hall
    exact ⟨parseLines_ok_of_decode lines hdec l, parseLines_ok_of_decode lines' hdec' l, heq,
      by rw [heq]⟩

/-- C20 at two interleavings of the lines of `A` and `B`. -/
theorem interleaving_independence_witness :
    (Logs.empty.parseLines
      ["t1 A client=a".toList, "t2 B client=b".toList, "t3 A to=x".toList,
       "t4 B to=y".toList]).1 =
    (Logs.empty.parseLines
      ["t2 B client=b".toList, "t4 B to=y".toList, "t1 A client=a".toList,
       "t3 A to=x".toList]).1 :=
  (interleaving_independence.2 Logs.empty
    ["t1 A client=a".toList, "t2 B client=b".toList, "t3 A to=x".toList, "t4 B to=y".toList]
    ["t2 B client=b".toList, "t4 B to=y".toList, "t1 A client=a".toList, "t3 A to=x".toList]
    (by
      intro x hx
      simp only [List.mem_cons, List.mem_singleton, List.not_mem_nil, or_false] at hx
      rcases hx with rfl | rfl | rfl | rfl <;> exact ⟨_, rfl⟩)
    (by decide) (by decide)).2.2.1

/-! ## Decimal digits -/

theorem toDigitsCore_acc (fuel : Nat) :
    ∀ (n : Nat) (ds : List Char),
      Nat.toDigitsCore 10 fuel n ds = Nat.toDigitsCore 10 fuel n [] ++ ds := by
  induction fuel with
  | zero => intro n ds; rfl
  | succ fuel ih =>
    intro n ds
    simp only [Nat.toDigitsCore]
    split_ifs with h
    · rfl
    · rw [ih (n / 10) (Nat.digitChar (n % 10) :: ds), ih (n / 10) [Nat.digitChar (n % 10)],
        List.append_assoc]
      rfl

theorem toDigitsCore_fuel (n : Nat) :
    ∀ f g : Nat, n < f → n < g →
      Nat.toDigitsCore 10 f n [] = Nat.toDigitsCore 10 g n [] := by
  induction n using Nat.strong_induction_on with
  | _ n ih =>
    intro f g hf hg
    cases f with
    | zero => omega
    | succ f =>
      cases g with
      | zero => omega
      | succ g =>
        simp only [Nat.toDigitsCore]
        split_ifs with h
        · rfl
        · rw [toDigitsCore_acc f, toDigitsCore_acc g,
            ih (n / 10) (by omega) f g (by omega) (by omega)]

theorem toDigits_of_lt_ten (n : Nat) (h : n < 10) :
    Nat.toDigits 10 n = [Nat.digitChar n] := by
  unfold Nat.toDigits
  simp only [Nat.toDigitsCore]
  rw [if_pos (by omega), Nat.mod_eq_of_lt h]

theorem toDigits_of_ten_le (n : Nat) (h : 10 ≤ n) :
    Nat.toDigits 10 n = Nat.toDigits 10 (n / 10) ++ [Nat.digitChar (n % 10)] := by
  have hstep : Nat.toDigitsCore 10 (n + 1) n [] =
      Nat.toDigitsCore 10 n (n / 10) [Nat.digitChar (n % 10)] := by
    simp only [Nat.toDigitsCore]
    rw [if_neg (by omega)]
  show Nat.toDigitsCore 10 (n + 1) n [] =
    Nat.toDigitsCore 10 (n / 10 + 1) (n / 10) [] ++ [Nat.digitChar (n % 10)]
  rw [hstep, toDigitsCore_acc,
    toDigitsCore_fuel (n / 10) n (n / 10 + 1) (by omega) (by omega)]

theorem appendInt_one (n : Nat) (h : n < 10) : time.appendInt n 1 = [Nat.digitChar n] := by
  unfold time.appendInt
  rw [toDigits_of_lt_ten n h]
  rfl

/-- The last digit of a padded number is its last decimal digit. -/
theorem appendInt_succ (n w : Nat) (hw : 1 ≤ w) :
    time.appendInt n (w + 1) = time.appendInt (n / 10) w ++ [Nat.digitChar (n % 10)] := by
  unfold time.appendInt
  by_cases h : n < 10
  · have h0 : n / 10 = 0 := by omega
    rw [toDigits_of_lt_ten n h, h0, toDigits_of_lt_ten 0 (by omega), Nat.mod_eq_of_lt h]
    simp only [List.length_singleton, Nat.add_sub_cancel]
    obtain ⟨v, rfl⟩ : ∃ v, w = v + 1 := ⟨w - 1, by omega⟩
    simp only [Nat.add_sub_cancel, List.append_assoc, List.singleton_append]
    rw [List.replicate_succ']
    simp
    rfl
  · rw [toDigits_of_ten_le n (by omega)]
    simp only [List.length_append, List.length_singleton]
    rw [show w + 1 - ((Nat.toDigits 10 (n / 10)).length + 1) =
      w - (Nat.toDigits 10 (n / 10)).length by omega, List.append_assoc]

theorem appendInt_two (n : Nat) (h : n < 100) : time.appendInt n 2 = twoDigits n := by
  rw [appendInt_succ n 1 (by omega), appendInt_one (n / 10) (by omega)]
  unfold twoDigits
  rw [Nat.mod_eq_of_lt (show n / 10 < 10 by omega)]
  rfl

theorem appendInt_nine_take (n : Nat) (h : n < 1000000000) :
    (time.appendInt n 9).take 6 = sixDigits (n / 1000) := by
  rw [appendInt_succ n 8 (by omega), appendInt_succ (n / 10) 7 (by omega),
    appendInt_succ (n / 10 / 10) 6 (by omega), appendInt_succ (n / 10 / 10 / 10) 5 (by omega),
    appendInt_succ (n / 10 / 10 / 10 / 10) 4 (by omega),
    appendInt_succ (n / 10 / 10 / 10 / 10 / 10) 3 (by omega),
    appendInt_succ (n / 10 / 10 / 10 / 10 / 10 / 10) 2 (by omega),
    appendInt_succ (n / 10 / 10 / 10 / 10 / 10 / 10 / 10) 1 (by omega),
    appendInt_one (n / 10 / 10 / 10 / 10 / 10 / 10 / 10 / 10) (by omega)]
  unfold sixDigits
  simp only [List.append_assoc, List.singleton_append, List.cons_append, List.nil_append,
    List.take_succ_cons, List.take_zero]
  have e8 : n / 10 / 10 / 10 / 10 / 10 / 10 / 10 / 10 = n / 1000 / 100000 % 10 := by omega
  have e7 : n / 10 / 10 / 10 / 10 / 10 / 10 / 10 % 10 = n / 1000 / 10000 % 10 := by omega
  have e6 : n / 10 / 10 / 10 / 10 / 10 / 10 % 10 = n / 1000 / 1000 % 10 := by omega
  have e5 : n / 10 / 10 / 10 / 10 / 10 % 10 = n / 1000 / 100 % 10 := by omega
  have e4 : n / 10 / 10 / 10 / 10 % 10 = n / 1000 / 10 % 10 := by omega
  have e3 : n / 10 / 10 / 10 % 10 = n / 1000 % 10 := by omega
  rw [e8, e7, e6, e5, e4, e3]

theorem appendNano_eq_fraction (n : Nat) (h : n < 1000000000) :
    time.appendNano n = fraction (n / 1000) := by
  unfold time.appendNano fraction dropTrailingZeros
  simp only
  rw [appendInt_nine_take n h]
  by_cases hz : List.dropWhile (fun c => decide (c = '0')) (sixDigits (n / 1000)).reverse = []
  · rw [if_pos hz, if_pos (by rw [hz]; rfl)]
  · rw [if_neg hz, if_neg (by simpa using hz)]

/-- The two wordings of the clock text agree below a day. -/
theorem formatElapsed_eq_clockText (ns : Nat) (h : ns < 86400000000000) :
    formatElapsed ns = clockText ns := by
  unfold formatElapsed clockText
  rw [appendInt_two _ (show ns / 3600000000000 < 100 by omega),
    appendInt_two _ (show ns / 60000000000 % 60 < 100 by omega),
    appendInt_two _ (show ns / 1000000000 % 60 < 100 by omega),
    appendNano_eq_fraction _ (show ns % 1000000000 < 1000000000 by omega)]

/-! ## C17 -/

/-- C17: for start and end timestamps that both parse, with at most microsecond precision, and
whose difference fits a `Duration`, `SetDuration` returns no error and sets the duration to the
time of day of the zero time plus `parse(end) - parse(start)`: the difference reduced modulo
24 hours into `[0h, 24h)`, printed as two digits each for hours, minutes and seconds and a
fractional part of up to six digits without trailing zeros, which is exact (the reduced
difference is a whole number of microseconds) and absent when zero. The hours field is below
24, the result is never empty, and when `0 ≤ end - start < 24h` the reduced difference is the
elapsed time itself. -/
theorem SetDuration_clock_text (t : Time) (a b : time.Time)
    (ha : time.Parse t.Start = some a) (hb : time.Parse t.«end» = some b)
    (hprec : a.nsec % 1000 = 0 ∧ b.nsec % 1000 = 0)
    (hfit : time.minDuration ≤ b.since a ∧ b.since a ≤ time.maxDuration) :
    t.SetDuration =
      ({ t with Duration := clockText (b.since a % 86400000000000).toNat }, none) ∧
    (b.since a % 86400000000000).toNat < 86400000000000 ∧
    (b.since a % 86400000000000).toNat / 3600000000000 < 24 ∧
    (b.since a % 86400000000000).toNat % 1000 = 0 ∧
    (0 ≤ b.since a ∧ b.since a < 86400000000000 →
      ((b.since a % 86400000000000).toNat : Int) = b.since a) ∧
    t.SetDuration.1.Duration ≠ [] ∧
    fraction 0 = [] := by
  have hlt : (b.since a % 86400000000000).toNat < 86400000000000 := by omega
  have hset : t.SetDuration =
      ({ t with Duration := clockText (b.since a % 86400000000000).toNat }, none) := by
    rw [SetDuration_of_parse t a b ha hb, zero_Add_Format, Sub_of_fits b a hfit,
      formatElapsed_eq_clockText _ hlt]
  refine ⟨hset, hlt, by omega, ?_, ?_, ?_, by decide⟩
  · unfold time.Time.since
    omega
  · intro h
    omega
  · rw [hset]
    simp [clockText, twoDigits]

/-- C17 at the start 10:00:00.25 and the end 10:00:05.5 of one day. -/
theorem SetDuration_clock_text_witness :
    Time.SetDuration { Start := "2021-01-01T10:00:00.25".toList,
                       «end» := "2021-01-01T10:00:05.5".toList } =
      ({ Start := "2021-01-01T10:00:00.25".toList, «end» := "2021-01-01T10:00:05.5".toList,
         Duration := clockText 5250000000 }, none) ∧
    clockText 5250000000 = "00:00:05.25".toList :=
  ⟨(SetDuration_clock_text
    { Start := "2021-01-01T10:00:00.25".toList, «end» := "2021-01-01T10:00:05.5".toList }
    (time.Date 2021 1 1 10 0 0 250000000) (time.Date 2021 1 1 10 0 5 500000000)
    (by decide) (by decide) (by decide) (by decide)).1, by decide⟩

end LogAutomation
